import Mathlib

/-!
# godot: a command builder for Graphviz

A shallow embedding of `godot/godot.go`.  A `Dotter` formats one line of dot
text per public call and writes it to the standard input of a renderer
subprocess.  The subprocess, its input pipe, the standard output used for the
debug echo and the process-wide logger are modelled by an explicit `World`
that every operation threads through; the outcomes the environment decides
(does a write fail, what does the subprocess exit with) are fields of it.

Go strings are modelled as lists of characters.  The three characters `esc`
looks for are ASCII, so a replacement at the level of characters and one at the
level of UTF-8 bytes agree.
-/

namespace Godot

/-! ## Strings and the library functions the package calls -/

/-- A Go `string`. -/
abbrev GoString := List Char

/-- A non-nil Go `error` value; the nil error is `none : Option GoError`. -/
structure GoError where
  msg : String
  deriving DecidableEq, Repr

/-- The scanning loop of `strings.Replace(s, old, new_, -1)` for a non-empty
`old`: `skip` counts the characters of a match just replaced that are still to
be passed over, so matches are taken left to right and never overlap. -/
def replaceScan (old new_ : GoString) : Nat → GoString → GoString
  | _, [] => []
  | skip + 1, _ :: cs => replaceScan old new_ skip cs
  | 0, c :: cs =>
    if old.isPrefixOf (c :: cs) then new_ ++ replaceScan old new_ (old.length - 1) cs
    else c :: replaceScan old new_ 0 cs

/-- The library call `strings.Replace(s, old, new_, -1)`: every non-overlapping
instance of `old` is replaced by `new_`; an empty `old` matches before every
character and at the end. -/
def Replace (s old new_ : GoString) : GoString :=
  if old = [] then new_ ++ s.flatMap (fun c => c :: new_)
  else replaceScan old new_ 0 s

/-- Source `esc` (godot.go lines 67-72): three successive replace-all passes. -/
def esc (node : GoString) : GoString :=
  let node := Replace node ['.'] "DOT".toList
  let node := Replace node ['/'] "SLASH".toList
  let node := Replace node ['-'] "HYPHEN".toList
  node

/-- The library call `strings.Join(elems, sep)`. -/
def Join : List GoString → GoString → GoString
  | [], _ => []
  | [a], _ => a
  | a :: b :: rest, sep => a ++ sep ++ Join (b :: rest) sep

/-- A Go `float64`: not-a-number, an infinity, or the finite value
`(-1)^neg * mant * 2^exp` (negative zero is `fin true 0 0`). -/
inductive Float64 where
  | nan
  | inf (neg : Bool)
  | fin (neg : Bool) (mant : Nat) (exp : Int)
  deriving DecidableEq, Repr

/-- The magnitude `mant * 2^exp` scaled by `10^6` and rounded to the nearest
integer, ties to even: the digits the verb `%f` prints at its default
precision of six. -/
def scaledMicro (mant : Nat) (exp : Int) : Nat :=
  match exp with
  | Int.ofNat e => mant * 2 ^ e * 10 ^ 6
  | Int.negSucc e =>
    let den := 2 ^ (e + 1)
    let num := mant * 10 ^ 6
    let q := num / den
    let r := num % den
    if den < 2 * r ∨ (2 * r = den ∧ q % 2 = 1) then q + 1 else q

/-- The six fractional digits of `%f`, most significant first. -/
def fracDigits (n : Nat) : GoString :=
  [5, 4, 3, 2, 1, 0].map (fun i => Nat.digitChar (n / 10 ^ i % 10))

/-- The text the verb `%f` of package `fmt` prints for a `float64`. -/
def fmtFloat : Float64 → GoString
  | Float64.nan => "NaN".toList
  | Float64.inf false => "+Inf".toList
  | Float64.inf true => "-Inf".toList
  | Float64.fin neg mant exp =>
    let q := scaledMicro mant exp
    (if neg then ['-'] else []) ++ Nat.toDigits 10 (q / 10 ^ 6) ++ ['.'] ++ fracDigits (q % 10 ^ 6)

/-- An operand of `fmt.Sprintf`: the package passes strings (also under the
named string types `NodeShape` and `Direction`) and `float64` values. -/
inductive Arg where
  | str (s : GoString)
  | flt (v : Float64)
  deriving DecidableEq, Repr

/-- The library call `fmt.Sprintf(format, args...)` on the fragment the package
uses: literal text, `%%`, `%s` with a string operand and `%f` with a `float64`
operand.  A verb that finds no operand of its kind prints the marker
`%!c(MISSING)` and a lone `%` at the end prints `%!(NOVERB)`, as the library
does for a plain verb; flags, widths, precisions and operand indexes are not
part of the fragment, and no format of the package has them. -/
def Sprintf : GoString → List Arg → GoString
  | [], _ => []
  | [c], _ => if c = '%' then "%!(NOVERB)".toList else [c]
  | c :: v :: rest, args =>
    if c = '%' then
      if v = '%' then '%' :: Sprintf rest args
      else
        match v, args with
        | 's', Arg.str s :: more => s ++ Sprintf rest more
        | 'f', Arg.flt x :: more => fmtFloat x ++ Sprintf rest more
        | _, more => "%!".toList ++ [v] ++ "(MISSING)".toList ++ Sprintf rest more.tail
    else c :: Sprintf (v :: rest) args

/-! ## The named string types and their constants (godot.go lines 14-55) -/

abbrev GraphType := GoString
abbrev NodeShape := GoString
abbrev Program := GoString
abbrev OutputType := GoString
abbrev Direction := GoString

def GRAPH_DIRECTED : GraphType := "digraph".toList
def GRAPH_UNDIRECTED : GraphType := "graph".toList

def SHAPE_BOX : NodeShape := "BOX".toList
def SHAPE_CIRCLE : NodeShape := "CIRCLE".toList
def SHAPE_FOLDER : NodeShape := "FOLDER".toList
def SHAPE_PLAINTEXT : NodeShape := "PLAINTEXT".toList
def SHAPE_TRIANGLE : NodeShape := "TRIANGLE".toList

def PROG_CIRCO : Program := "circo".toList
def PROG_DOT : Program := "dot".toList
def PROG_FDP : Program := "fdp".toList
def PROG_NEATO : Program := "neato".toList
def PROG_SFDP : Program := "sfdp".toList
def PROG_TWOPI : Program := "twopi".toList

def OUT_BMP : OutputType := "bmp".toList
def OUT_DOT : OutputType := "dot".toList
def OUT_JPG : OutputType := "jpg".toList
def OUT_PDF : OutputType := "pdf".toList
def OUT_PNG : OutputType := "png".toList
def OUT_PS : OutputType := "ps".toList
def OUT_SVG : OutputType := "svg".toList

def DIR_LR : Direction := "LR".toList
def DIR_RL : Direction := "RL".toList

/-! ## The environment of a session -/

/-- One effect a session has on its environment. -/
inductive Event where
  /-- The call `io.WriteString(dotter.stdin, cmd)` and the error it gave. -/
  | write (cmd : GoString) (err : Option GoError)
  /-- Text sent to standard output by `fmt.Printf`. -/
  | print (text : GoString)
  /-- The message `CreateCluster` hands to the process-wide logger. -/
  | log (text : GoString)
  /-- The call `dotter.stdin.Close()`. -/
  | closeStdin
  /-- The call `dotter.instance.Wait()`. -/
  | wait
  deriving DecidableEq, Repr

/-- What lies outside a `Dotter`: the effects performed so far, oldest first,
the state of the input pipe and of the subprocess, and the outcomes the
environment has in store. -/
structure World where
  /-- Effects performed so far, oldest first. -/
  events : List Event
  /-- The input pipe has been closed. -/
  stdinClosed : Bool
  /-- Outcomes of the coming writes on the open pipe, next one first (`none`
  is success); once the list is used up every write succeeds. -/
  faults : List (Option GoError)
  /-- The subprocess was started. -/
  started : Bool
  /-- The subprocess has been waited for already. -/
  waited : Bool
  /-- What the subprocess exits with: `none` for success. -/
  exitErr : Option GoError
  /-- A background copy relays the subprocess output to standard output. -/
  relay : Bool
  deriving DecidableEq, Repr

/-- The error of a write on a closed pipe. -/
def errClosed : GoError := ⟨"file already closed"⟩

/-- The call `io.WriteString(dotter.stdin, cmd)`: a closed pipe rejects the
write, an open one takes the next scheduled outcome.  A write that fails
delivers nothing. -/
def WriteString (w : World) (cmd : GoString) : World × Option GoError :=
  if w.stdinClosed then
    ({ w with events := w.events ++ [Event.write cmd (some errClosed)] }, some errClosed)
  else
    match w.faults with
    | [] => ({ w with events := w.events ++ [Event.write cmd none] }, none)
    | o :: rest => ({ w with events := w.events ++ [Event.write cmd o], faults := rest }, o)

/-- The call `fmt.Printf(format, args...)`. -/
def Printf (w : World) (format : GoString) (args : List Arg) : World :=
  { w with events := w.events ++ [Event.print (Sprintf format args)] }

/-- The call `dotter.stdin.Close()`; its result is not looked at by the package. -/
def closePipe (w : World) : World :=
  { w with events := w.events ++ [Event.closeStdin], stdinClosed := true }

/-- The call `dotter.instance.Wait()`: the exit error of the subprocess, or the
library's complaint when the subprocess never started or was waited for before. -/
def Wait (w : World) : World × Option GoError :=
  if w.started = false then
    ({ w with events := w.events ++ [Event.wait] }, some ⟨"exec: not started"⟩)
  else if w.waited then
    ({ w with events := w.events ++ [Event.wait] }, some ⟨"exec: Wait was already called"⟩)
  else
    ({ w with events := w.events ++ [Event.wait], waited := true }, w.exitErr)

/-- Every command handed to `io.WriteString`, in order, whatever the outcome. -/
def attempts : List Event → List GoString
  | [] => []
  | Event.write cmd _ :: es => cmd :: attempts es
  | _ :: es => attempts es

/-- The commands the subprocess received: the writes that succeeded, in order. -/
def received : List Event → List GoString
  | [] => []
  | Event.write cmd none :: es => cmd :: received es
  | _ :: es => received es

/-- The text sent to standard output, in order. -/
def printed : List Event → List GoString
  | [] => []
  | Event.print t :: es => t :: printed es
  | _ :: es => printed es

/-! ## The session -/

/-- The `*exec.Cmd` of the renderer: the resolved executable and its arguments. -/
structure Cmd where
  Path : GoString
  Args : List GoString
  deriving DecidableEq, Repr

/-- Source `Dotter` (godot.go lines 57-65).  The field `stdin` is the handle to
the pipe kept in the `World`. -/
structure Dotter where
  instance_ : Cmd
  graphType : GraphType
  isStrict : Bool
  Debug : Bool
  isFirstCmd : Bool
  deriving DecidableEq, Repr

/-- What a method of `Dotter` leaves behind: the session, the environment and
the `error` it returns. -/
structure Result where
  dotter : Dotter
  world : World
  err : Option GoError
  deriving DecidableEq, Repr

/-- The tail of `sendCmd` (godot.go lines 83-88): format the command, echo it
when `Debug` is set, write it to the input pipe and return the error of that
write. -/
def sendTail (d : Dotter) (w : World) (format : GoString) (args : List Arg) : Result :=
  let cmd := Sprintf format args ++ ['\n']
  let w := if d.Debug then Printf w "dot> %s".toList [Arg.str cmd] else w
  let (w, err) := WriteString w cmd
  ⟨d, w, err⟩

/-- Source `Dotter.sendCmd` (godot.go lines 74-89).  The first argument bounds
the depth of the recursion at lines 78 and 80; `sendCmd` below supplies it.
The results of the two nested calls are dropped, as in the source. -/
def sendCmdAux : Nat → Dotter → World → GoString → List Arg → Result
  | 0, d, w, _, _ => ⟨d, w, none⟩
  | depth + 1, d, w, format, args =>
    let r : Result :=
      if d.isFirstCmd then
        let d := { d with isFirstCmd := false }
        let r : Result :=
          if d.isStrict then sendCmdAux depth d w "strict".toList []
          else ⟨d, w, none⟩
        sendCmdAux depth r.dotter r.world (r.dotter.graphType ++ ['{']) []
      else ⟨d, w, none⟩
    sendTail r.dotter r.world format args

/-- Source `Dotter.sendCmd`: a nested call runs with `isFirstCmd` already
false and does not recurse further, so depth two is all the recursion needs
(`sendCmdAux_depth` proves that a larger bound changes nothing). -/
def sendCmd (d : Dotter) (w : World) (format : GoString) (args : List Arg) : Result :=
  sendCmdAux 2 d w format args

/-- Source `Dotter.Close` (godot.go lines 148-152). -/
def Close (d : Dotter) (w : World) : Result :=
  let r := sendCmd d w ['}'] []
  let w := closePipe r.world
  let (w, err) := Wait w
  ⟨r.dotter, w, err⟩

/-- Source `Dotter.SetLink` (godot.go lines 154-160). -/
def SetLink (d : Dotter) (w : World) (src dst : GoString) : Result :=
  let link := if d.graphType = GRAPH_DIRECTED then "%s -> %s".toList else "%s -- %s".toList
  sendCmd d w link [Arg.str (esc src), Arg.str (esc dst)]

/-- Source `Dotter.SetNodeSep` (godot.go lines 162-164). -/
def SetNodeSep (d : Dotter) (w : World) (val : Float64) : Result :=
  sendCmd d w "nodesep=%f".toList [Arg.flt val]

/-- Source `Dotter.SetRankDir` (godot.go lines 166-168). -/
def SetRankDir (d : Dotter) (w : World) (direction : Direction) : Result :=
  sendCmd d w "rankdir=%s".toList [Arg.str direction]

/-- The loop of `CreateCluster` (godot.go lines 172-175): each node is
sanitized and appended to the slice. -/
def sanitizeNodes (nodes : List GoString) : List GoString :=
  nodes.foldl (fun sanitizedNodes node => sanitizedNodes ++ [esc node]) []

/-- The text the verb `%s` prints for a `[]string` operand: the elements
between brackets, separated by spaces. -/
def fmtStrings (xs : List GoString) : GoString :=
  ['['] ++ Join xs [' '] ++ [']']

/-- Source `Dotter.CreateCluster` (godot.go lines 170-178).  The logger adds a
time stamp of its own to the message; the event keeps the message. -/
def CreateCluster (d : Dotter) (w : World) (name : GoString) (nodes : List GoString) : Result :=
  let w := { w with events := w.events ++
    [Event.log (Sprintf "Creating cluster %s with %s".toList [Arg.str name, Arg.str (fmtStrings nodes)])] }
  let sanitizedNodes := sanitizeNodes nodes
  let nodesList := Join sanitizedNodes [';']
  sendCmd d w "subgraph cluster_%s \x7blabel=\"%s\";%s\x7d".toList
    [Arg.str name, Arg.str name, Arg.str nodesList]

/-- Source `Dotter.SetEdgeWeight` (godot.go lines 180-182). -/
def SetEdgeWeight (d : Dotter) (w : World) (val : Float64) : Result :=
  sendCmd d w "edge [weight=%f];".toList [Arg.flt val]

/-- Source `Dotter.SetRankSep` (godot.go lines 184-186). -/
def SetRankSep (d : Dotter) (w : World) (val : Float64) : Result :=
  sendCmd d w "ranksep=%f".toList [Arg.flt val]

/-- Source `Dotter.SetLabel` (godot.go lines 188-190). -/
def SetLabel (d : Dotter) (w : World) (node label : GoString) : Result :=
  sendCmd d w "%s [label=\"%s\"]".toList [Arg.str (esc node), Arg.str label]

/-- Source `Dotter.SetNodeShape` (godot.go lines 192-194). -/
def SetNodeShape (d : Dotter) (w : World) (node : GoString) (shape : NodeShape) : Result :=
  sendCmd d w "%s [shape=\"%s\"]".toList [Arg.str (esc node), Arg.str shape]

/-! ## Construction -/

/-- How a Go function call ends: it returns a value, or it panics. -/
inductive Outcome (α : Type) where
  | returned (val : α)
  | panicked (e : GoError)
  deriving DecidableEq, Repr

/-- What the operating system answers to the calls `NewDotterEx` makes, and
what it has in store for the session that results. -/
structure Env where
  /-- Result of `exec.LookPath`: the resolved path or an error. -/
  lookPath : Program → Except GoError GoString
  /-- Error of `cmd.StdoutPipe()`, if any. -/
  stdoutPipeErr : Option GoError
  /-- Error of `cmd.StdinPipe()`, if any. -/
  stdinPipeErr : Option GoError
  /-- Error of `cmd.Start()`, if any. -/
  startErr : Option GoError
  /-- Outcomes of the coming writes on the input pipe. -/
  faults : List (Option GoError)
  /-- What the subprocess will exit with. -/
  exitErr : Option GoError

/-- Source `exec.Command(name, arg...)`: the argument vector starts with the name. -/
def Command (name : GoString) (arg : List GoString) : Cmd :=
  ⟨name, name :: arg⟩

/-- Source `NewDotterEx` (godot.go lines 101-140).  The value returned is the
pair of the session (with its environment), `none` standing for the nil
pointer, and the error. -/
def NewDotterEx (env : Env) (oType : OutputType) (prog : Program) (gType : GraphType)
    (isStrict writeToFile : Bool) (fname : GoString) :
    Outcome (Option (Dotter × World) × Option GoError) :=
  match env.lookPath prog with
  | Except.error err => Outcome.panicked err
  | Except.ok dotPath =>
    let otype := "-T".toList ++ oType
    let step : Except GoError (Cmd × Bool) :=
      if writeToFile then
        let ofile := if fname ≠ [] then "-o".toList ++ fname else "-O".toList
        Except.ok (Command dotPath [otype, ofile], false)
      else
        match env.stdoutPipeErr with
        | some err => Except.error err
        | none => Except.ok (Command dotPath [otype], true)
    match step with
    | Except.error err => Outcome.returned (none, some err)
    | Except.ok (cmd, relay) =>
      match env.stdinPipeErr with
      | some err => Outcome.returned (none, some err)
      | none =>
        let dotter : Dotter :=
          { instance_ := cmd, graphType := gType, isStrict := isStrict,
            Debug := false, isFirstCmd := true }
        let world : World :=
          { events := [], stdinClosed := false, faults := env.faults,
            started := env.startErr.isNone, waited := false,
            exitErr := env.exitErr, relay := relay }
        Outcome.returned (some (dotter, world), env.startErr)

/-- Source `NewDotter` (godot.go lines 144-146). -/
def NewDotter (env : Env) (oType : OutputType) (gType : GraphType) (fname : GoString) :
    Outcome (Option (Dotter × World) × Option GoError) :=
  NewDotterEx env oType PROG_DOT gType true true fname

/-! ## Sequences of calls -/

/-- A call of one of the eight public methods that emit a statement. -/
inductive Op where
  | SetLink (src dst : GoString)
  | SetLabel (node label : GoString)
  | SetNodeShape (node : GoString) (shape : NodeShape)
  | SetNodeSep (val : Float64)
  | SetRankSep (val : Float64)
  | SetRankDir (direction : Direction)
  | SetEdgeWeight (val : Float64)
  | CreateCluster (name : GoString) (nodes : List GoString)
  deriving DecidableEq, Repr

/-- Performs one emitting call. -/
def Op.run (d : Dotter) (w : World) : Op → Result
  | Op.SetLink a b => Godot.SetLink d w a b
  | Op.SetLabel n l => Godot.SetLabel d w n l
  | Op.SetNodeShape n s => Godot.SetNodeShape d w n s
  | Op.SetNodeSep v => Godot.SetNodeSep d w v
  | Op.SetRankSep v => Godot.SetRankSep d w v
  | Op.SetRankDir dir => Godot.SetRankDir d w dir
  | Op.SetEdgeWeight v => Godot.SetEdgeWeight d w v
  | Op.CreateCluster n ns => Godot.CreateCluster d w n ns

/-- A call of a public method: an emitting one, or `Close`. -/
inductive Call where
  | emit (op : Op)
  | close
  deriving DecidableEq, Repr

/-- Performs one public call. -/
def Call.run (d : Dotter) (w : World) : Call → Result
  | Call.emit op => op.run d w
  | Call.close => Close d w

/-- Performs a sequence of public calls starting from the state `r`; the error
kept is the one of the last call. -/
def runFrom (r : Result) : List Call → Result
  | [] => r
  | c :: cs => runFrom (c.run r.dotter r.world) cs

/-- Performs a sequence of public calls on the session `d` in the environment `w`. -/
def runCalls (d : Dotter) (w : World) (cs : List Call) : Result :=
  runFrom ⟨d, w, none⟩ cs

/-! ## Vocabulary of the statements -/

/-- The command that carries the strictness keyword. -/
def strictCmd : GoString := "strict\n".toList

/-- The header command of a session: the graph type followed by the opening brace. -/
def headerCmd (d : Dotter) : GoString := Sprintf (d.graphType ++ ['{']) [] ++ ['\n']

/-- The closing command. -/
def closingCmd : GoString := ['}', '\n']

/-- The commands a session sends ahead of its next command: the strictness
keyword (for a strict session) and the header while nothing has been sent,
nothing afterwards. -/
def preamble (d : Dotter) : List GoString :=
  if d.isFirstCmd then (if d.isStrict then [strictCmd] else []) ++ [headerCmd d] else []

/-- Sends the commands in order on the input pipe, each echoed first when
`dbg` is set, starting from an environment and the error of the write before. -/
def emitFrom (dbg : Bool) : World × Option GoError → List GoString → World × Option GoError
  | acc, [] => acc
  | acc, cmd :: cmds =>
    let w := if dbg then Printf acc.1 "dot> %s".toList [Arg.str cmd] else acc.1
    emitFrom dbg (WriteString w cmd) cmds

/-- Sends the commands in order on the input pipe; the error is the one of the
last write. -/
def emitAll (dbg : Bool) (w : World) (cmds : List GoString) : World × Option GoError :=
  emitFrom dbg (w, none) cmds

/-- The input pipe is open and no failure is scheduled: every write succeeds. -/
def Healthy (w : World) : Prop :=
  w.stdinClosed = false ∧ ∀ o ∈ w.faults, o = none

/-- The result the call `Wait` gives in the environment `w`. -/
def waitResult (w : World) : Option GoError := (Wait w).2

/-- The session with the header flag cleared. -/
def Dotter.sent (d : Dotter) : Dotter := { d with isFirstCmd := false }

/-- No string argument of the call contains a newline character. -/
def Op.newlineFree : Op → Prop
  | Op.SetLink a b => '\n' ∉ a ∧ '\n' ∉ b
  | Op.SetLabel n l => '\n' ∉ n ∧ '\n' ∉ l
  | Op.SetNodeShape n sh => '\n' ∉ n ∧ '\n' ∉ sh
  | Op.SetNodeSep _ => True
  | Op.SetRankSep _ => True
  | Op.SetRankDir dir => '\n' ∉ dir
  | Op.SetEdgeWeight _ => True
  | Op.CreateCluster n ns => '\n' ∉ n ∧ ∀ x ∈ ns, '\n' ∉ x

/-- What the specification substitutes for one character of a name: the token
`DOT` for `.`, `SLASH` for `/`, `HYPHEN` for `-`, the character itself otherwise. -/
def substChar (c : Char) : GoString :=
  if c = '.' then "DOT".toList
  else if c = '/' then "SLASH".toList
  else if c = '-' then "HYPHEN".toList
  else [c]

/-- Name sanitization as the specification words it: one simultaneous
substitution, character by character, in order. -/
def escSpec (s : GoString) : GoString :=
  s.flatMap substChar

/-- The echo of a command on standard output: the command behind the marker. -/
def echoLine (cmd : GoString) : GoString :=
  "dot> ".toList ++ cmd

/-- The events without the text sent to standard output. -/
def silent : List Event → List Event
  | [] => []
  | Event.print _ :: es => silent es
  | e :: es => e :: silent es

/-- Two environments that differ at most in the text sent to standard output. -/
def sameProtocol (w1 w2 : World) : Prop :=
  silent w1.events = silent w2.events ∧ w1.stdinClosed = w2.stdinClosed ∧
  w1.faults = w2.faults ∧ w1.started = w2.started ∧ w1.waited = w2.waited ∧
  w1.exitErr = w2.exitErr ∧ w1.relay = w2.relay

/-- The session with its `Debug` flag set to `b`. -/
def Dotter.withDebug (d : Dotter) (b : Bool) : Dotter := { d with Debug := b }

/-- The errors of the writes on the input pipe, in order (`none` for a write
that succeeded). -/
def outcomes : List Event → List (Option GoError)
  | [] => []
  | Event.write _ err :: es => err :: outcomes es
  | _ :: es => outcomes es

/-- Failure of the pipe is permanent: once a write has failed, every later
write fails.  This is how the pipe of `cmd.StdinPipe()` behaves once the
subprocess has exited or the pipe was closed. -/
def Permanent : List (Option GoError) → Prop
  | [] => True
  | none :: os => Permanent os
  | some _ :: os => ∀ o ∈ os, o ≠ none

/-! ## Sample sessions -/

/-- A renderer command as `NewDotter` builds it for SVG output. -/
def sampleCmd : Cmd := Command "/usr/bin/dot".toList ["-Tsvg".toList, "-O".toList]

/-- A fresh strict session of a directed graph. -/
def sampleDotter : Dotter :=
  { instance_ := sampleCmd, graphType := GRAPH_DIRECTED, isStrict := true,
    Debug := false, isFirstCmd := true }

/-- A fresh session of an undirected graph that is not strict. -/
def sampleUndirected : Dotter :=
  { instance_ := sampleCmd, graphType := GRAPH_UNDIRECTED, isStrict := false,
    Debug := false, isFirstCmd := true }

/-- An environment just after a start that went well: nothing done yet, pipe
open, no failure in store, the subprocess will exit with success. -/
def sampleWorld : World :=
  { events := [], stdinClosed := false, faults := [], started := true,
    waited := false, exitErr := none, relay := false }

/-- An environment in which the subprocess goes away after taking the first
command: the write of the keyword succeeds, the two writes that follow in the
same call each fail with a broken pipe.  The schedule covers the three writes
of the first call of a strict session, the only call made in it. -/
def brokenPipe : World :=
  { sampleWorld with faults := [none, some ⟨"broken pipe"⟩, some ⟨"broken pipe"⟩] }

/-- An operating system on which no renderer is installed. -/
def envNoRenderer : Env :=
  { lookPath := fun _ => Except.error ⟨"executable file not found"⟩,
    stdoutPipeErr := none, stdinPipeErr := none, startErr := none,
    faults := [], exitErr := none }

/-- An operating system with the renderer `dot` installed, on which pipes and
start succeed, every write goes through and the renderer exits with success. -/
def envWithDot : Env :=
  { lookPath := fun prog => Except.ok ("/usr/bin/".toList ++ prog),
    stdoutPipeErr := none, stdinPipeErr := none, startErr := none,
    faults := [], exitErr := none }

/-! ## The recursion of `sendCmd` -/

theorem sendCmdAux_notFirst (n : Nat) (d : Dotter) (w : World) (format : GoString)
    (args : List Arg) (h : d.isFirstCmd = false) :
    sendCmdAux (n + 1) d w format args = sendTail d w format args := by
  simp [sendCmdAux, h]

/-- A recursion bound above two changes nothing: `sendCmd` is the whole function. -/
theorem sendCmdAux_depth (n : Nat) (d : Dotter) (w : World) (format : GoString)
    (args : List Arg) : sendCmdAux (n + 2) d w format args = sendCmd d w format args := by
  unfold sendCmd
  cases hf : d.isFirstCmd
  · rw [sendCmdAux_notFirst _ _ _ _ _ hf, sendCmdAux_notFirst _ _ _ _ _ hf]
  · cases hs : d.isStrict <;>
      simp [sendCmdAux, hf, hs, sendTail]

theorem sendTail_eq (d : Dotter) (w : World) (format : GoString) (args : List Arg) :
    sendTail d w format args =
      ⟨d, (emitAll d.Debug w [Sprintf format args ++ ['\n']]).1,
        (emitAll d.Debug w [Sprintf format args ++ ['\n']]).2⟩ := by
  simp [sendTail, emitAll, emitFrom]

theorem emitFrom_append (dbg : Bool) (acc : World × Option GoError) (xs ys : List GoString) :
    emitFrom dbg acc (xs ++ ys) = emitFrom dbg (emitFrom dbg acc xs) ys := by
  induction xs generalizing acc with
  | nil => rfl
  | cons x xs ih => simp [emitFrom, ih]

theorem emitFrom_snd_irrel (dbg : Bool) (w : World) (e : Option GoError) (x : GoString)
    (xs : List GoString) :
    emitFrom dbg (w, e) (x :: xs) = emitFrom dbg (w, none) (x :: xs) := by
  simp [emitFrom]

/-- The shape of `sendCmd`: the preamble and then the command are sent in
order, the header flag is cleared, and the error is the one of the last write. -/
theorem sendCmd_eq (d : Dotter) (w : World) (format : GoString) (args : List Arg) :
    sendCmd d w format args =
      ⟨d.sent, (emitAll d.Debug w (preamble d ++ [Sprintf format args ++ ['\n']])).1,
        (emitAll d.Debug w (preamble d ++ [Sprintf format args ++ ['\n']])).2⟩ := by
  obtain ⟨i, g, s, dbg, f⟩ := d
  cases f <;> cases s <;>
    simp [sendCmd, sendCmdAux, sendTail, preamble, emitAll, emitFrom, Dotter.sent,
      strictCmd, headerCmd, Sprintf]

/-! ## Reading the event list -/

theorem attempts_append (xs ys : List Event) :
    attempts (xs ++ ys) = attempts xs ++ attempts ys := by
  induction xs with
  | nil => rfl
  | cons e es ih => cases e <;> simp [attempts, ih]

theorem received_append (xs ys : List Event) :
    received (xs ++ ys) = received xs ++ received ys := by
  induction xs with
  | nil => rfl
  | cons e es ih =>
    cases e with
    | write c o => cases o <;> simp [received, ih]
    | _ => simp [received, ih]

theorem printed_append (xs ys : List Event) :
    printed (xs ++ ys) = printed xs ++ printed ys := by
  induction xs with
  | nil => rfl
  | cons e es ih => cases e <;> simp [printed, ih]

/-! ## One write -/

theorem WriteString_events (w : World) (cmd : GoString) :
    (WriteString w cmd).1.events = w.events ++ [Event.write cmd (WriteString w cmd).2] := by
  unfold WriteString
  split
  · rfl
  · split <;> rfl

theorem WriteString_frame (w : World) (cmd : GoString) :
    (WriteString w cmd).1.stdinClosed = w.stdinClosed ∧
    (WriteString w cmd).1.started = w.started ∧
    (WriteString w cmd).1.waited = w.waited ∧
    (WriteString w cmd).1.exitErr = w.exitErr ∧
    (WriteString w cmd).1.relay = w.relay := by
  unfold WriteString
  split
  · simp
  · split <;> simp

theorem WriteString_healthy (w : World) (cmd : GoString) (h : Healthy w) :
    (WriteString w cmd).2 = none ∧ Healthy (WriteString w cmd).1 := by
  obtain ⟨hc, hf⟩ := h
  unfold WriteString
  rw [if_neg (by simp [hc])]
  cases hfl : w.faults with
  | nil => exact ⟨rfl, hc, by simp [hfl]⟩
  | cons o rest =>
    rw [hfl] at hf
    refine ⟨hf o (by simp), hc, ?_⟩
    intro o2 ho2
    exact hf o2 (by simp at ho2 ⊢; exact Or.inr ho2)

theorem WriteString_closed (w : World) (cmd : GoString) (h : w.stdinClosed = true) :
    (WriteString w cmd).2 = some errClosed := by
  simp [WriteString, h]

theorem Printf_frame (w : World) (format : GoString) (args : List Arg) :
    (Printf w format args).stdinClosed = w.stdinClosed ∧
    (Printf w format args).faults = w.faults ∧
    (Printf w format args).started = w.started ∧
    (Printf w format args).waited = w.waited ∧
    (Printf w format args).exitErr = w.exitErr ∧
    (Printf w format args).relay = w.relay := by
  simp [Printf]

theorem Printf_healthy (w : World) (format : GoString) (args : List Arg) (h : Healthy w) :
    Healthy (Printf w format args) := h

theorem Sprintf_echo (cmd : GoString) :
    Sprintf "dot> %s".toList [Arg.str cmd] = "dot> ".toList ++ cmd := by
  simp [Sprintf]

/-- The environment a command is written in: after the echo, if any. -/
theorem echo_events (dbg : Bool) (w : World) (cmd : GoString) :
    (if dbg then Printf w "dot> %s".toList [Arg.str cmd] else w).events =
      w.events ++ (if dbg then [Event.print ("dot> ".toList ++ cmd)] else []) := by
  cases dbg
  · simp
  · simp only [if_true, Printf, Sprintf_echo]

theorem echo_frame (dbg : Bool) (w : World) (cmd : GoString) :
    (if dbg then Printf w "dot> %s".toList [Arg.str cmd] else w).stdinClosed = w.stdinClosed ∧
    (if dbg then Printf w "dot> %s".toList [Arg.str cmd] else w).faults = w.faults ∧
    (if dbg then Printf w "dot> %s".toList [Arg.str cmd] else w).started = w.started ∧
    (if dbg then Printf w "dot> %s".toList [Arg.str cmd] else w).waited = w.waited ∧
    (if dbg then Printf w "dot> %s".toList [Arg.str cmd] else w).exitErr = w.exitErr ∧
    (if dbg then Printf w "dot> %s".toList [Arg.str cmd] else w).relay = w.relay := by
  cases dbg <;> simp [Printf]

theorem echo_healthy (dbg : Bool) (w : World) (cmd : GoString) (h : Healthy w) :
    Healthy (if dbg then Printf w "dot> %s".toList [Arg.str cmd] else w) := by
  cases dbg
  · simpa using h
  · simpa using Printf_healthy w _ _ h

/-! ## A run of writes -/

theorem emitFrom_attempts (dbg : Bool) (acc : World × Option GoError) (cmds : List GoString) :
    attempts (emitFrom dbg acc cmds).1.events = attempts acc.1.events ++ cmds := by
  induction cmds generalizing acc with
  | nil => simp [emitFrom]
  | cons c cs ih =>
    simp only [emitFrom]
    rw [ih, WriteString_events, attempts_append, echo_events, attempts_append]
    cases dbg <;> simp [attempts]

theorem emitFrom_frame (dbg : Bool) (acc : World × Option GoError) (cmds : List GoString) :
    (emitFrom dbg acc cmds).1.stdinClosed = acc.1.stdinClosed ∧
    (emitFrom dbg acc cmds).1.started = acc.1.started ∧
    (emitFrom dbg acc cmds).1.waited = acc.1.waited ∧
    (emitFrom dbg acc cmds).1.exitErr = acc.1.exitErr ∧
    (emitFrom dbg acc cmds).1.relay = acc.1.relay := by
  induction cmds generalizing acc with
  | nil => simp [emitFrom]
  | cons c cs ih =>
    simp only [emitFrom]
    obtain ⟨h1, h2, h3, h4, h5⟩ := ih (WriteString (if dbg then Printf acc.1 "dot> %s".toList [Arg.str c] else acc.1) c)
    obtain ⟨k1, k2, k3, k4, k5⟩ := WriteString_frame (if dbg then Printf acc.1 "dot> %s".toList [Arg.str c] else acc.1) c
    obtain ⟨e1, _, e3, e4, e5, e6⟩ := echo_frame dbg acc.1 c
    exact ⟨by rw [h1, k1, e1], by rw [h2, k2, e3], by rw [h3, k3, e4], by rw [h4, k4, e5],
      by rw [h5, k5, e6]⟩

/-- On a healthy pipe every command of a run is received and no error comes back. -/
theorem emitFrom_healthy (dbg : Bool) (acc : World × Option GoError) (cmds : List GoString)
    (h : Healthy acc.1) :
    Healthy (emitFrom dbg acc cmds).1 ∧
    received (emitFrom dbg acc cmds).1.events = received acc.1.events ++ cmds ∧
    (cmds ≠ [] → (emitFrom dbg acc cmds).2 = none) := by
  induction cmds generalizing acc with
  | nil => simp [emitFrom, h]
  | cons c cs ih =>
    simp only [emitFrom]
    have hw := WriteString_healthy _ c (echo_healthy dbg acc.1 c h)
    obtain ⟨i1, i2, i3⟩ := ih (WriteString (if dbg then Printf acc.1 "dot> %s".toList [Arg.str c] else acc.1) c) hw.2
    refine ⟨i1, ?_, ?_⟩
    · rw [i2, WriteString_events, received_append, echo_events, received_append, hw.1]
      cases dbg <;> simp [received]
    · intro _
      cases cs with
      | nil => simpa [emitFrom] using hw.1
      | cons c2 cs2 => exact i3 (by simp)

/-- On a closed pipe nothing of a run is received and the error is the one of a
closed pipe. -/
theorem emitFrom_closed (dbg : Bool) (acc : World × Option GoError) (cmds : List GoString)
    (h : acc.1.stdinClosed = true) :
    received (emitFrom dbg acc cmds).1.events = received acc.1.events ∧
    (cmds ≠ [] → (emitFrom dbg acc cmds).2 = some errClosed) := by
  induction cmds generalizing acc with
  | nil => simp [emitFrom]
  | cons c cs ih =>
    simp only [emitFrom]
    have hc : (if dbg then Printf acc.1 "dot> %s".toList [Arg.str c] else acc.1).stdinClosed = true := by
      rw [(echo_frame dbg acc.1 c).1]; exact h
    have hw := WriteString_closed _ c hc
    have hc2 := (WriteString_frame (if dbg then Printf acc.1 "dot> %s".toList [Arg.str c] else acc.1) c).1
    obtain ⟨i1, i2⟩ := ih (WriteString (if dbg then Printf acc.1 "dot> %s".toList [Arg.str c] else acc.1) c) (by rw [hc2]; exact hc)
    refine ⟨?_, ?_⟩
    · rw [i1, WriteString_events, received_append, echo_events, received_append, hw]
      cases dbg <;> simp [received]
    · intro _
      cases cs with
      | nil => simpa [emitFrom] using hw
      | cons c2 cs2 => exact i2 (by simp)

/-- Whatever the pipe does, what is received of a run is a sublist of it. -/
theorem emitFrom_received (dbg : Bool) (acc : World × Option GoError) (cmds : List GoString) :
    ∃ sub, received (emitFrom dbg acc cmds).1.events = received acc.1.events ++ sub ∧
      sub.Sublist cmds := by
  induction cmds generalizing acc with
  | nil => exact ⟨[], by simp [emitFrom]⟩
  | cons c cs ih =>
    simp only [emitFrom]
    obtain ⟨sub, i1, i2⟩ := ih (WriteString (if dbg then Printf acc.1 "dot> %s".toList [Arg.str c] else acc.1) c)
    rw [i1, WriteString_events, received_append, echo_events, received_append]
    cases hres : (WriteString (if dbg then Printf acc.1 "dot> %s".toList [Arg.str c] else acc.1) c).2 with
    | none =>
      refine ⟨c :: sub, ?_, List.Sublist.cons₂ c i2⟩
      cases dbg <;> simp [received]
    | some e =>
      refine ⟨sub, ?_, List.Sublist.cons c i2⟩
      cases dbg <;> simp [received]

/-! ## Sanitized names -/

/-- Replacing a one-character pattern is a substitution character by character. -/
theorem Replace_single (s : GoString) (c : Char) (new_ : GoString) :
    Replace s [c] new_ = s.flatMap (fun x => if x = c then new_ else [x]) := by
  unfold Replace
  rw [if_neg (by simp)]
  induction s with
  | nil => rfl
  | cons x xs ih =>
    by_cases hx : x = c
    · subst hx
      simp [replaceScan, ih]
    · have hx2 : ¬ c = x := fun h => hx h.symm
      simp [replaceScan, ih, hx, hx2]

theorem mem_Replace_single (s : GoString) (c : Char) (new_ : GoString) (y : Char) :
    y ∈ Replace s [c] new_ ↔ (y ∈ s ∧ y ≠ c) ∨ (c ∈ s ∧ y ∈ new_) := by
  rw [Replace_single]
  simp only [List.mem_flatMap]
  constructor
  · rintro ⟨x, hx, hy⟩
    by_cases hxc : x = c
    · subst hxc
      simp at hy
      exact Or.inr ⟨hx, hy⟩
    · simp [hxc] at hy
      subst hy
      exact Or.inl ⟨hx, hxc⟩
  · rintro (⟨hy, hne⟩ | ⟨hc, hy⟩)
    · exact ⟨y, hy, by simp [hne]⟩
    · exact ⟨c, hc, by simp [hy]⟩

/-- A character of a sanitized name is a character of the name other than the
three replaced ones, or a letter of one of the three tokens. -/
theorem mem_esc (node : GoString) (y : Char) (h : y ∈ esc node) :
    (y ∈ node ∧ y ≠ '.' ∧ y ≠ '/' ∧ y ≠ '-') ∨ y ∈ "DOTSLASHHYPHEN".toList := by
  simp only [esc, mem_Replace_single] at h
  rcases h with ⟨(⟨(⟨h1, h2⟩ | ⟨_, h2⟩), h3⟩ | ⟨_, h3⟩), h4⟩ | ⟨_, h4⟩
  · exact Or.inl ⟨h1, h2, h3, h4⟩
  · right; simp at h2 ⊢; tauto
  · right; simp at h3 ⊢; tauto
  · right; simp at h4 ⊢; tauto

/-! ## What one call of `sendCmd` sends -/

theorem sendCmd_attempts (d : Dotter) (w : World) (format : GoString) (args : List Arg) :
    attempts (sendCmd d w format args).world.events =
      attempts w.events ++ preamble d ++ [Sprintf format args ++ ['\n']] := by
  rw [sendCmd_eq]
  simp only [emitAll]
  rw [emitFrom_attempts, List.append_assoc]

theorem sendCmd_dotter (d : Dotter) (w : World) (format : GoString) (args : List Arg) :
    (sendCmd d w format args).dotter = d.sent := by
  rw [sendCmd_eq]

theorem sendCmd_healthy (d : Dotter) (w : World) (format : GoString) (args : List Arg)
    (h : Healthy w) :
    Healthy (sendCmd d w format args).world ∧
    received (sendCmd d w format args).world.events =
      received w.events ++ preamble d ++ [Sprintf format args ++ ['\n']] ∧
    (sendCmd d w format args).err = none := by
  rw [sendCmd_eq]
  simp only [emitAll]
  obtain ⟨h1, h2, h3⟩ := emitFrom_healthy d.Debug (w, none)
    (preamble d ++ [Sprintf format args ++ ['\n']]) h
  exact ⟨h1, by rw [h2, List.append_assoc], h3 (by simp)⟩

theorem sendCmd_frame (d : Dotter) (w : World) (format : GoString) (args : List Arg) :
    (sendCmd d w format args).world.stdinClosed = w.stdinClosed ∧
    (sendCmd d w format args).world.started = w.started ∧
    (sendCmd d w format args).world.waited = w.waited ∧
    (sendCmd d w format args).world.exitErr = w.exitErr ∧
    (sendCmd d w format args).world.relay = w.relay := by
  rw [sendCmd_eq]
  exact emitFrom_frame d.Debug (w, none) _

theorem sanitizeNodes_eq (nodes : List GoString) : sanitizeNodes nodes = nodes.map esc := by
  unfold sanitizeNodes
  have key : ∀ (acc : List GoString),
      nodes.foldl (fun sanitizedNodes node => sanitizedNodes ++ [esc node]) acc
        = acc ++ nodes.map esc := by
    induction nodes with
    | nil => intro acc; simp
    | cons n ns ih => intro acc; simp [ih]
  simpa using key []

/-! ## What one public call sends -/

theorem sendCmd_received (d : Dotter) (w : World) (format : GoString) (args : List Arg) :
    ∃ sub, received (sendCmd d w format args).world.events = received w.events ++ sub ∧
      sub.Sublist (preamble d ++ [Sprintf format args ++ ['\n']]) := by
  rw [sendCmd_eq]
  exact emitFrom_received d.Debug (w, none) _

theorem sendCmd_closed (d : Dotter) (w : World) (format : GoString) (args : List Arg)
    (h : w.stdinClosed = true) :
    received (sendCmd d w format args).world.events = received w.events ∧
    (sendCmd d w format args).err = some errClosed := by
  rw [sendCmd_eq]
  obtain ⟨h1, h2⟩ := emitFrom_closed d.Debug (w, none)
    (preamble d ++ [Sprintf format args ++ ['\n']]) h
  exact ⟨h1, h2 (by simp)⟩

/-- Every emitting operation is one call of `sendCmd`, after at most a message
to the logger, and its formatted statement contains a blank or an equals sign. -/
theorem Op_run_eq (op : Op) (d : Dotter) (w : World) :
    ∃ (pre : List Event) (format : GoString) (args : List Arg),
      op.run d w = sendCmd d { w with events := w.events ++ pre } format args ∧
      (pre = [] ∨ ∃ t, pre = [Event.log t]) ∧
      (' ' ∈ Sprintf format args ∨ '=' ∈ Sprintf format args) := by
  cases op with
  | SetLink a b =>
    by_cases hk : d.graphType = GRAPH_DIRECTED
    · exact ⟨[], _, _, by simp [Op.run, SetLink, hk]; rfl, Or.inl rfl, by simp [Sprintf, hk]⟩
    · exact ⟨[], _, _, by simp [Op.run, SetLink, hk]; rfl, Or.inl rfl, by simp [Sprintf, hk]⟩
  | SetLabel n l =>
    exact ⟨[], _, _, by simp [Op.run, SetLabel]; rfl, Or.inl rfl, by simp [Sprintf]⟩
  | SetNodeShape n sh =>
    exact ⟨[], _, _, by simp [Op.run, SetNodeShape]; rfl, Or.inl rfl, by simp [Sprintf]⟩
  | SetNodeSep v =>
    exact ⟨[], _, _, by simp [Op.run, SetNodeSep]; rfl, Or.inl rfl, by simp [Sprintf]⟩
  | SetRankSep v =>
    exact ⟨[], _, _, by simp [Op.run, SetRankSep]; rfl, Or.inl rfl, by simp [Sprintf]⟩
  | SetRankDir dir =>
    exact ⟨[], _, _, by simp [Op.run, SetRankDir]; rfl, Or.inl rfl, by simp [Sprintf]⟩
  | SetEdgeWeight v =>
    exact ⟨[], _, _, by simp [Op.run, SetEdgeWeight]; rfl, Or.inl rfl, by simp [Sprintf]⟩
  | CreateCluster n ns =>
    exact ⟨_, _, _, by simp only [Op.run, CreateCluster]; rfl, Or.inr ⟨_, rfl⟩, by simp [Sprintf]⟩

/-- The account of one emitting call: the header flag is cleared, the preamble
and one statement are handed to the pipe, and that statement contains a blank
or an equals sign. -/
theorem Op_run_summary (op : Op) (d : Dotter) (w : World) :
    ∃ stmt : GoString,
      (' ' ∈ stmt ∨ '=' ∈ stmt) ∧
      (op.run d w).dotter = d.sent ∧
      attempts (op.run d w).world.events = attempts w.events ++ preamble d ++ [stmt] ∧
      (∃ sub, received (op.run d w).world.events = received w.events ++ sub ∧
        sub.Sublist (preamble d ++ [stmt])) ∧
      (Healthy w → Healthy (op.run d w).world ∧
        received (op.run d w).world.events = received w.events ++ preamble d ++ [stmt] ∧
        (op.run d w).err = none) ∧
      (w.stdinClosed = true → received (op.run d w).world.events = received w.events ∧
        (op.run d w).err = some errClosed) ∧
      (op.run d w).world.stdinClosed = w.stdinClosed := by
  obtain ⟨pre, format, args, hrun, hpre, hsep⟩ := Op_run_eq op d w
  have ha : attempts (w.events ++ pre) = attempts w.events := by
    rcases hpre with h | ⟨t, h⟩ <;> subst h <;> simp [attempts_append, attempts]
  have hr : received (w.events ++ pre) = received w.events := by
    rcases hpre with h | ⟨t, h⟩ <;> subst h <;> simp [received_append, received]
  refine ⟨Sprintf format args ++ ['\n'], ?_, ?_, ?_, ?_, ?_, ?_, ?_⟩
  · rcases hsep with h | h
    · exact Or.inl (List.mem_append_left _ h)
    · exact Or.inr (List.mem_append_left _ h)
  · rw [hrun, sendCmd_dotter]
  · rw [hrun, sendCmd_attempts]
    simp only [ha]
  · obtain ⟨sub, h1, h2⟩ := sendCmd_received d { w with events := w.events ++ pre } format args
    exact ⟨sub, by rw [hrun, h1]; simp only [hr], h2⟩
  · intro hw
    have hw0 : Healthy { w with events := w.events ++ pre } := hw
    obtain ⟨h1, h2, h3⟩ := sendCmd_healthy d _ format args hw0
    exact ⟨by rw [hrun]; exact h1, by rw [hrun, h2]; simp only [hr], by rw [hrun]; exact h3⟩
  · intro hc
    have hc0 : ({ w with events := w.events ++ pre } : World).stdinClosed = true := hc
    obtain ⟨h1, h2⟩ := sendCmd_closed d _ format args hc0
    exact ⟨by rw [hrun, h1]; exact hr, by rw [hrun]; exact h2⟩
  · rw [hrun, (sendCmd_frame d _ format args).1]

theorem Wait_events (w : World) : (Wait w).1.events = w.events ++ [Event.wait] := by
  unfold Wait
  split
  · rfl
  · split <;> rfl

theorem Wait_stdinClosed (w : World) : (Wait w).1.stdinClosed = w.stdinClosed := by
  unfold Wait
  split
  · rfl
  · split <;> rfl

theorem Close_events (d : Dotter) (w : World) :
    (Close d w).world.events =
      (sendCmd d w ['}'] []).world.events ++ [Event.closeStdin, Event.wait] := by
  simp [Close, Wait_events, closePipe]

theorem Sprintf_closing : Sprintf ['}'] [] ++ ['\n'] = closingCmd := by
  simp [Sprintf, closingCmd]

/-- The account of one call of `Close`. -/
theorem Close_summary (d : Dotter) (w : World) :
    (Close d w).dotter = d.sent ∧
    attempts (Close d w).world.events = attempts w.events ++ preamble d ++ [closingCmd] ∧
    (∃ sub, received (Close d w).world.events = received w.events ++ sub ∧
      sub.Sublist (preamble d ++ [closingCmd])) ∧
    (Healthy w →
      received (Close d w).world.events = received w.events ++ preamble d ++ [closingCmd]) ∧
    (Close d w).world.stdinClosed = true := by
  refine ⟨?_, ?_, ?_, ?_, ?_⟩
  · simp [Close, sendCmd_dotter]
  · rw [Close_events, attempts_append, sendCmd_attempts, Sprintf_closing]
    simp [attempts]
  · obtain ⟨sub, h1, h2⟩ := sendCmd_received d w ['}'] []
    rw [Sprintf_closing] at h2
    exact ⟨sub, by rw [Close_events, received_append, h1]; simp [received], h2⟩
  · intro hw
    rw [Close_events, received_append, (sendCmd_healthy d w _ _ hw).2.1, Sprintf_closing]
    simp [received]
  · simp [Close, Wait_stdinClosed, closePipe]

/-- The account of one public call, emitting or `Close`. -/
theorem Call_run_summary (c : Call) (d : Dotter) (w : World) :
    ∃ stmt : GoString,
      (stmt = closingCmd ∨ ' ' ∈ stmt ∨ '=' ∈ stmt) ∧
      (c.run d w).dotter = d.sent ∧
      attempts (c.run d w).world.events = attempts w.events ++ preamble d ++ [stmt] ∧
      (∃ sub, received (c.run d w).world.events = received w.events ++ sub ∧
        sub.Sublist (preamble d ++ [stmt])) ∧
      (Healthy w →
        received (c.run d w).world.events = received w.events ++ preamble d ++ [stmt]) := by
  cases c with
  | emit op =>
    obtain ⟨stmt, h1, h2, h3, h4, h5, _⟩ := Op_run_summary op d w
    exact ⟨stmt, Or.inr h1, h2, h3, h4, fun hw => (h5 hw).2.1⟩
  | close =>
    obtain ⟨h2, h3, h4, h5, _⟩ := Close_summary d w
    exact ⟨closingCmd, Or.inl rfl, h2, h3, h4, h5⟩

theorem preamble_sent (d : Dotter) : preamble d.sent = [] := by
  simp [preamble, Dotter.sent]

theorem preamble_of_not_first (d : Dotter) (h : d.isFirstCmd = false) : preamble d = [] := by
  simp [preamble, h]

theorem preamble_fresh (d : Dotter) (h : d.isFirstCmd = true) :
    preamble d = (if d.isStrict then [strictCmd] else []) ++ [headerCmd d] := by
  simp [preamble, h]

theorem runFrom_append (r : Result) (xs ys : List Call) :
    runFrom r (xs ++ ys) = runFrom (runFrom r xs) ys := by
  induction xs generalizing r with
  | nil => rfl
  | cons x xs ih => simp [runFrom, ih]

/-- A run of emitting calls on a healthy pipe: every statement is received, in
order, after the preamble of the session. -/
theorem runFrom_ops_healthy (ops : List Op) (r : Result) (h : Healthy r.world) :
    Healthy (runFrom r (ops.map Call.emit)).world ∧
    ∃ body : List GoString,
      received (runFrom r (ops.map Call.emit)).world.events
          ++ preamble (runFrom r (ops.map Call.emit)).dotter
        = received r.world.events ++ preamble r.dotter ++ body ∧
      body.length = ops.length ∧
      ∀ s ∈ body, (' ' ∈ s ∨ '=' ∈ s) := by
  induction ops generalizing r with
  | nil => exact ⟨h, [], by simp [runFrom], rfl, by simp⟩
  | cons op ops ih =>
    obtain ⟨stmt, h1, h2, _, _, h5, _⟩ := Op_run_summary op r.dotter r.world
    obtain ⟨k1, k2, k3⟩ := h5 h
    obtain ⟨i1, body, i2, i3, i4⟩ := ih (op.run r.dotter r.world) k1
    refine ⟨i1, stmt :: body, ?_, by simp [i3], ?_⟩
    · simp only [List.map, runFrom, Call.run]
      rw [i2, k2, h2, preamble_sent]
      simp
    · intro s hs
      rcases List.mem_cons.1 hs with hs | hs
      · subst hs; exact h1
      · exact i4 s hs

/-- A run of public calls, whatever the pipe does: the commands handed to the
pipe are the preamble of the session and then one command for each call. -/
theorem runFrom_attempts (calls : List Call) (r : Result) :
    ∃ body : List GoString,
      attempts (runFrom r calls).world.events ++ preamble (runFrom r calls).dotter
        = attempts r.world.events ++ preamble r.dotter ++ body ∧
      body.length = calls.length ∧
      (∀ s ∈ body, (s = closingCmd ∨ ' ' ∈ s ∨ '=' ∈ s)) ∧
      (calls ≠ [] → (runFrom r calls).dotter.isFirstCmd = false) := by
  induction calls generalizing r with
  | nil => exact ⟨[], by simp [runFrom], rfl, by simp, by simp⟩
  | cons c cs ih =>
    obtain ⟨stmt, h1, h2, h3, _, _⟩ := Call_run_summary c r.dotter r.world
    obtain ⟨body, i2, i3, i4, i5⟩ := ih (c.run r.dotter r.world)
    refine ⟨stmt :: body, ?_, by simp [i3], ?_, ?_⟩
    · simp only [runFrom]
      rw [i2, h3, h2, preamble_sent]
      simp
    · intro s hs
      rcases List.mem_cons.1 hs with hs | hs
      · subst hs; exact h1
      · exact i4 s hs
    · intro _
      simp only [runFrom]
      cases cs with
      | nil => simp [runFrom, h2, Dotter.sent]
      | cons c2 cs2 => exact i5 (by simp)

/-- A run of public calls on a session past its header: what is received is
closing commands and statements. -/
theorem runFrom_received_sent (calls : List Call) (r : Result)
    (hsent : r.dotter.isFirstCmd = false) :
    ∃ sub : List GoString,
      received (runFrom r calls).world.events = received r.world.events ++ sub ∧
      ∀ s ∈ sub, (s = closingCmd ∨ ' ' ∈ s ∨ '=' ∈ s) := by
  induction calls generalizing r with
  | nil => exact ⟨[], by simp [runFrom], by simp⟩
  | cons c cs ih =>
    obtain ⟨stmt, h1, h2, _, ⟨sub, h4, h5⟩, _⟩ := Call_run_summary c r.dotter r.world
    rw [preamble_of_not_first _ hsent, List.nil_append] at h5
    obtain ⟨sub2, i1, i2⟩ := ih (c.run r.dotter r.world) (by rw [h2]; rfl)
    refine ⟨sub ++ sub2, by simp only [runFrom]; rw [i1, h4, List.append_assoc], ?_⟩
    intro s hs
    rcases List.mem_append.1 hs with hs | hs
    · have : s ∈ [stmt] := h5.subset hs
      rw [List.mem_singleton.1 this]
      exact h1
    · exact i2 s hs

/-! ## The header never reads as another command -/

theorem Sprintf_brace_last_aux (n : Nat) : ∀ fmt : GoString, fmt.length ≤ n →
    ∃ (front : GoString) (c : Char),
      Sprintf (fmt ++ ['{']) [] = front ++ [c] ∧ (c = '{' ∨ c = ')') := by
  induction n with
  | zero =>
    intro fmt hlen
    have : fmt = [] := List.length_eq_zero.1 (Nat.le_zero.1 hlen)
    subst this
    exact ⟨[], '{', by simp [Sprintf], Or.inl rfl⟩
  | succ n ih =>
    intro fmt hlen
    match fmt, hlen with
    | [], _ => exact ⟨[], '{', by simp [Sprintf], Or.inl rfl⟩
    | [c], _ =>
      by_cases hc : c = '%'
      · subst hc
        exact ⟨"%!\x7b(MISSING".toList, ')', by simp [Sprintf], Or.inr rfl⟩
      · exact ⟨[c], '{', by simp [Sprintf, hc], Or.inl rfl⟩
    | c :: v :: rest, hlen =>
      have hlt : rest.length ≤ n := by simp at hlen; omega
      have hlt2 : (v :: rest).length ≤ n := by simp at hlen ⊢; omega
      obtain ⟨f1, c1, e1, p1⟩ := ih rest hlt
      obtain ⟨f2, c2, e2, p2⟩ := ih (v :: rest) hlt2
      by_cases hc : c = '%'
      · subst hc
        by_cases hv : v = '%'
        · subst hv
          exact ⟨'%' :: f1, c1, by simp [Sprintf, e1], p1⟩
        · refine ⟨"%!".toList ++ [v] ++ "(MISSING)".toList ++ f1, c1, ?_, p1⟩
          have : Sprintf ('%' :: v :: (rest ++ ['{'])) [] =
              "%!".toList ++ [v] ++ "(MISSING)".toList ++ Sprintf (rest ++ ['{']) [] := by
            simp [Sprintf, hv]
          simp only [List.cons_append] at this ⊢
          rw [this, e1]
          simp
      · refine ⟨c :: f2, c2, ?_, p2⟩
        have : Sprintf (c :: v :: (rest ++ ['{'])) [] = c :: Sprintf (v :: (rest ++ ['{'])) [] := by
          simp [Sprintf, hc]
        simp only [List.cons_append] at this e2 ⊢
        rw [this, e2]

/-- The formatted header ends with the opening brace, or with the closing
parenthesis of a marker when the graph type carries a stray verb. -/
theorem Sprintf_brace_last (fmt : GoString) :
    ∃ (front : GoString) (c : Char),
      Sprintf (fmt ++ ['{']) [] = front ++ [c] ∧ (c = '{' ∨ c = ')') :=
  Sprintf_brace_last_aux fmt.length fmt (Nat.le_refl _)

theorem headerCmd_ne_strictCmd (d : Dotter) : headerCmd d ≠ strictCmd := by
  obtain ⟨front, c, e, p⟩ := Sprintf_brace_last d.graphType
  intro h
  unfold headerCmd strictCmd at h
  rw [e] at h
  have h2 := congrArg List.reverse h
  simp at h2
  rcases p with p | p <;> subst p <;> exact absurd h2.1 (by decide)

/-! ## Header, strictness keyword and closing command -/

theorem headerCmd_of_kind (d : Dotter)
    (hkind : d.graphType = GRAPH_DIRECTED ∨ d.graphType = GRAPH_UNDIRECTED) :
    headerCmd d = d.graphType ++ ['{', '\n'] := by
  rcases hkind with h | h <;> (unfold headerCmd; rw [h]; decide)

theorem sampleWorld_healthy : Healthy sampleWorld := by
  simp [Healthy, sampleWorld]

/-- C1: on a fresh session of kind `GRAPH_DIRECTED` or `GRAPH_UNDIRECTED`, strict
or not, any finite run of emitting calls followed by `Close`, all writes
succeeding, delivers to the subprocess: the strictness keyword if the session
is strict, then the header command (graph type and opening brace), then one
statement for each call, then the closing command; the header and the closing
command each occur exactly once. -/
theorem header_and_closing_once (d : Dotter) (w : World) (ops : List Op)
    (hfresh : d.isFirstCmd = true)
    (hkind : d.graphType = GRAPH_DIRECTED ∨ d.graphType = GRAPH_UNDIRECTED)
    (hw : Healthy w) :
    ∃ body : List GoString,
      received (runCalls d w (ops.map Call.emit ++ [Call.close])).world.events =
        received w.events ++
          ((if d.isStrict then [strictCmd] else []) ++ headerCmd d :: (body ++ [closingCmd])) ∧
      headerCmd d = d.graphType ++ ['{', '\n'] ∧
      body.length = ops.length ∧
      ((if d.isStrict then [strictCmd] else []) ++ headerCmd d :: (body ++ [closingCmd])).count
        (headerCmd d) = 1 ∧
      ((if d.isStrict then [strictCmd] else []) ++ headerCmd d :: (body ++ [closingCmd])).count
        closingCmd = 1 := by
  obtain ⟨hh, body, hb, hlen, hsep⟩ := runFrom_ops_healthy ops ⟨d, w, none⟩ hw
  obtain ⟨_, _, _, hc, _⟩ := Close_summary (runFrom ⟨d, w, none⟩ (ops.map Call.emit)).dotter
    (runFrom ⟨d, w, none⟩ (ops.map Call.emit)).world
  have hhead := headerCmd_of_kind d hkind
  have hhsep : ¬ (' ' ∈ headerCmd d ∨ '=' ∈ headerCmd d) := by
    rw [hhead]
    rcases hkind with h | h <;> (rw [h]; decide)
  have hcsep : ¬ (' ' ∈ closingCmd ∨ '=' ∈ closingCmd) := by decide
  have hb1 : headerCmd d ∉ body := fun hm => hhsep (hsep _ hm)
  have hb2 : closingCmd ∉ body := fun hm => hcsep (hsep _ hm)
  have hne1 : headerCmd d ≠ closingCmd := by
    rw [hhead]
    rcases hkind with h | h <;> (rw [h]; decide)
  have hne2 : strictCmd ≠ closingCmd := by decide
  have hne3 := headerCmd_ne_strictCmd d
  refine ⟨body, ?_, hhead, hlen, ?_, ?_⟩
  · unfold runCalls
    rw [runFrom_append]
    simp only [runFrom, Call.run]
    rw [hc hh, hb, preamble_fresh d hfresh]
    simp
  · cases d.isStrict <;>
      simp [List.count_append, List.count_cons, List.count_eq_zero_of_not_mem hb1, hne1, hne3,
        Ne.symm hne1, Ne.symm hne3]
  · cases d.isStrict <;>
      simp [List.count_append, List.count_cons, List.count_eq_zero_of_not_mem hb2, hne1, hne2,
        Ne.symm hne1, Ne.symm hne2]

/-- Witness for C1: a strict directed session, one link, then `Close`. -/
theorem header_and_closing_once_witness :
    ∃ body : List GoString,
      received (runCalls sampleDotter sampleWorld
          ([Op.SetLink "a".toList "b".toList].map Call.emit ++ [Call.close])).world.events =
        received sampleWorld.events ++
          ((if sampleDotter.isStrict then [strictCmd] else []) ++
            headerCmd sampleDotter :: (body ++ [closingCmd])) ∧
      headerCmd sampleDotter = sampleDotter.graphType ++ ['{', '\n'] ∧
      body.length = [Op.SetLink "a".toList "b".toList].length ∧
      ((if sampleDotter.isStrict then [strictCmd] else []) ++
        headerCmd sampleDotter :: (body ++ [closingCmd])).count (headerCmd sampleDotter) = 1 ∧
      ((if sampleDotter.isStrict then [strictCmd] else []) ++
        headerCmd sampleDotter :: (body ++ [closingCmd])).count closingCmd = 1 :=
  header_and_closing_once sampleDotter sampleWorld [Op.SetLink "a".toList "b".toList] rfl
    (Or.inl rfl) sampleWorld_healthy

/-- C2: on a fresh session, any non-empty run of public calls (emitting ones
and `Close`, in any order) hands the command `strict` to the input pipe exactly
once when the session is strict and never when it is not; when it is sent it is
the first command and the header command follows it at once.  On a healthy pipe
the same holds of what the subprocess receives. -/
theorem strict_keyword_once (d : Dotter) (w : World) (calls : List Call)
    (hfresh : d.isFirstCmd = true) (hne : calls ≠ []) :
    ∃ rest : List GoString,
      attempts (runCalls d w calls).world.events =
        attempts w.events ++
          ((if d.isStrict then [strictCmd] else []) ++ headerCmd d :: rest) ∧
      strictCmd ∉ headerCmd d :: rest ∧
      ((if d.isStrict then [strictCmd] else []) ++ headerCmd d :: rest).count strictCmd =
        (if d.isStrict then 1 else 0) ∧
      (Healthy w → ∃ got : List GoString,
        received (runCalls d w calls).world.events =
          received w.events ++
            ((if d.isStrict then [strictCmd] else []) ++ headerCmd d :: got) ∧
        strictCmd ∉ headerCmd d :: got) := by
  have hs : ∀ s : GoString, (s = closingCmd ∨ ' ' ∈ s ∨ '=' ∈ s) → strictCmd ≠ s := by
    intro s hs heq
    subst heq
    revert hs
    decide
  have hne3 := headerCmd_ne_strictCmd d
  obtain ⟨body, hb, _, hsep, hflag⟩ := runFrom_attempts calls ⟨d, w, none⟩
  rw [preamble_of_not_first _ (hflag hne), List.append_nil, preamble_fresh d hfresh] at hb
  have hnot : strictCmd ∉ headerCmd d :: body := by
    intro hm
    rcases List.mem_cons.1 hm with hm | hm
    · exact hne3 hm.symm
    · exact hs _ (hsep _ hm) rfl
  refine ⟨body, ?_, hnot, ?_, ?_⟩
  · unfold runCalls
    rw [hb]
    simp
  · cases d.isStrict <;> simp [List.count_append, List.count_eq_zero_of_not_mem hnot]
  · intro hw
    match calls, hne with
    | c :: cs, _ =>
      obtain ⟨stmt, h1, h2, _, _, h5⟩ := Call_run_summary c d w
      obtain ⟨sub, i1, i2⟩ := runFrom_received_sent cs (c.run d w) (by rw [h2]; rfl)
      refine ⟨stmt :: sub, ?_, ?_⟩
      · unfold runCalls
        simp only [runFrom]
        rw [i1, h5 hw, preamble_fresh d hfresh]
        simp
      · intro hm
        rcases List.mem_cons.1 hm with hm | hm
        · exact hne3 hm.symm
        · rcases List.mem_cons.1 hm with hm | hm
          · exact hs _ h1 hm
          · exact hs _ (i2 _ hm) rfl

/-- Witness for C2: a strict directed session, a label, `Close`, then a link
sent to the closed pipe. -/
theorem strict_keyword_once_witness :
    ∃ rest : List GoString,
      attempts (runCalls sampleDotter sampleWorld
          [Call.emit (Op.SetLabel "a".toList "Start".toList), Call.close,
            Call.emit (Op.SetLink "a".toList "b".toList)]).world.events =
        attempts sampleWorld.events ++
          ((if sampleDotter.isStrict then [strictCmd] else []) ++
            headerCmd sampleDotter :: rest) ∧
      strictCmd ∉ headerCmd sampleDotter :: rest ∧
      ((if sampleDotter.isStrict then [strictCmd] else []) ++
        headerCmd sampleDotter :: rest).count strictCmd =
        (if sampleDotter.isStrict then 1 else 0) ∧
      (Healthy sampleWorld → ∃ got : List GoString,
        received (runCalls sampleDotter sampleWorld
            [Call.emit (Op.SetLabel "a".toList "Start".toList), Call.close,
              Call.emit (Op.SetLink "a".toList "b".toList)]).world.events =
          received sampleWorld.events ++
            ((if sampleDotter.isStrict then [strictCmd] else []) ++
              headerCmd sampleDotter :: got) ∧
        strictCmd ∉ headerCmd sampleDotter :: got) :=
  strict_keyword_once sampleDotter sampleWorld _ rfl (by simp)

/-! ## Statements of the emitting operations -/

/-- C3: `SetLink(src, dst)` hands to the input pipe, after the preamble of a
fresh session, exactly the statement `esc src ++ " -> " ++ esc dst ++ "\n"` when
the graph kind is `GRAPH_DIRECTED` and `esc src ++ " -- " ++ esc dst ++ "\n"`
when it is `GRAPH_UNDIRECTED`; on a healthy pipe that is what the subprocess
receives. -/
theorem SetLink_statement (d : Dotter) (w : World) (src dst : GoString) :
    (d.graphType = GRAPH_DIRECTED →
      attempts (SetLink d w src dst).world.events =
        attempts w.events ++ preamble d ++ [esc src ++ " -> ".toList ++ esc dst ++ ['\n']] ∧
      (Healthy w → received (SetLink d w src dst).world.events =
        received w.events ++ preamble d ++ [esc src ++ " -> ".toList ++ esc dst ++ ['\n']])) ∧
    (d.graphType = GRAPH_UNDIRECTED →
      attempts (SetLink d w src dst).world.events =
        attempts w.events ++ preamble d ++ [esc src ++ " -- ".toList ++ esc dst ++ ['\n']] ∧
      (Healthy w → received (SetLink d w src dst).world.events =
        received w.events ++ preamble d ++ [esc src ++ " -- ".toList ++ esc dst ++ ['\n']])) := by
  constructor
  · intro hk
    have hf : Sprintf "%s -> %s".toList [Arg.str (esc src), Arg.str (esc dst)] ++ ['\n']
        = esc src ++ " -> ".toList ++ esc dst ++ ['\n'] := by simp [Sprintf]
    unfold SetLink
    rw [if_pos hk, sendCmd_attempts, hf]
    exact ⟨rfl, fun hw => by rw [(sendCmd_healthy d w _ _ hw).2.1, hf]⟩
  · intro hk
    have hne : ¬ d.graphType = GRAPH_DIRECTED := by rw [hk]; decide
    have hf : Sprintf "%s -- %s".toList [Arg.str (esc src), Arg.str (esc dst)] ++ ['\n']
        = esc src ++ " -- ".toList ++ esc dst ++ ['\n'] := by simp [Sprintf]
    unfold SetLink
    rw [if_neg hne, sendCmd_attempts, hf]
    exact ⟨rfl, fun hw => by rw [(sendCmd_healthy d w _ _ hw).2.1, hf]⟩

/-- Witness for C3: one link on a fresh directed session and on a fresh
undirected one. -/
theorem SetLink_statement_witness :
    attempts (SetLink sampleDotter sampleWorld "a.b".toList "c".toList).world.events =
      ["strict\n".toList, "digraph\x7b\n".toList, "aDOTb -> c\n".toList] ∧
    attempts (SetLink sampleUndirected sampleWorld "a.b".toList "c".toList).world.events =
      ["graph\x7b\n".toList, "aDOTb -- c\n".toList] :=
  ⟨((SetLink_statement sampleDotter sampleWorld "a.b".toList "c".toList).1 rfl).1,
   ((SetLink_statement sampleUndirected sampleWorld "a.b".toList "c".toList).2 rfl).1⟩

/-- C4: `CreateCluster(name, nodes)` hands to the input pipe, after the preamble
of a fresh session, the single block
`subgraph cluster_<name> {label="<name>";<members>}` whose member list is the
sanitized names `esc n` of the given nodes joined by `;`, in input order and as
many as were given (the empty list included). -/
theorem CreateCluster_statement (d : Dotter) (w : World) (name : GoString)
    (nodes : List GoString) :
    attempts (CreateCluster d w name nodes).world.events =
      attempts w.events ++ preamble d ++
        ["subgraph cluster_".toList ++ name ++ " \x7blabel=\"".toList ++ name ++ "\";".toList
          ++ Join (nodes.map esc) [';'] ++ ['}', '\n']] ∧
    (nodes.map esc).length = nodes.length ∧
    (∀ i : Nat, (nodes.map esc)[i]? = (nodes[i]?).map esc) := by
  refine ⟨?_, by simp, ?_⟩
  · unfold CreateCluster
    rw [sendCmd_attempts, sanitizeNodes_eq]
    simp [Sprintf, attempts_append, attempts]
  · intro i
    simp [List.getElem?_map]

/-- C5: a sanitized name contains none of the characters `.`, `/` and `-`. -/
theorem esc_no_special (node : GoString) :
    '.' ∉ esc node ∧ '/' ∉ esc node ∧ '-' ∉ esc node := by
  refine ⟨fun h => ?_, fun h => ?_, fun h => ?_⟩ <;>
    rcases mem_esc node _ h with ⟨_, h1, h2, h3⟩ | h4 <;>
    first
      | exact absurd rfl h1
      | exact absurd rfl h2
      | exact absurd rfl h3
      | exact absurd h4 (by decide)

/-! ## Errors -/

/-- C7, refuted: where no renderer is installed `NewDotterEx` panics with the
lookup error, so it returns nothing to its caller. -/
theorem NewDotterEx_missing_renderer_panics :
    NewDotterEx envNoRenderer OUT_SVG PROG_DOT GRAPH_DIRECTED true true [] =
      Outcome.panicked ⟨"executable file not found"⟩ ∧
    ∀ val, NewDotterEx envNoRenderer OUT_SVG PROG_DOT GRAPH_DIRECTED true true [] ≠
      Outcome.returned val := by
  refine ⟨rfl, ?_⟩
  intro val h
  simp [NewDotterEx, envNoRenderer] at h

/-- C7 as amended: whenever the renderer program cannot be located,
`NewDotterEx` panics with the error of the lookup; no session and no error
value are returned. -/
theorem NewDotterEx_panics_of_lookPath_error (env : Env) (oType : OutputType)
    (prog : Program) (gType : GraphType) (isStrict writeToFile : Bool) (fname : GoString)
    (err : GoError) (hlook : env.lookPath prog = Except.error err) :
    NewDotterEx env oType prog gType isStrict writeToFile fname = Outcome.panicked err ∧
    ∀ val, NewDotterEx env oType prog gType isStrict writeToFile fname ≠
      Outcome.returned val := by
  have h : NewDotterEx env oType prog gType isStrict writeToFile fname =
      Outcome.panicked err := by
    simp [NewDotterEx, hlook]
  refine ⟨h, ?_⟩
  intro val hval
  rw [h] at hval
  cases hval

/-- Witness for C7 as amended. -/
theorem NewDotterEx_panics_of_lookPath_error_witness :
    NewDotterEx envNoRenderer OUT_PNG PROG_NEATO GRAPH_UNDIRECTED false false "out".toList =
      Outcome.panicked ⟨"executable file not found"⟩ ∧
    ∀ val, NewDotterEx envNoRenderer OUT_PNG PROG_NEATO GRAPH_UNDIRECTED false false
      "out".toList ≠ Outcome.returned val :=
  NewDotterEx_panics_of_lookPath_error envNoRenderer OUT_PNG PROG_NEATO GRAPH_UNDIRECTED
    false false "out".toList ⟨"executable file not found"⟩ rfl

/-- C8: once `Close` has completed, the pipe rejecting every write, each
emitting operation returns a non-nil error (the one of the closed pipe) and
adds nothing to what the subprocess received. -/
theorem emit_after_Close_fails (d : Dotter) (w : World) (op : Op) :
    (op.run (Close d w).dotter (Close d w).world).err = some errClosed ∧
    (op.run (Close d w).dotter (Close d w).world).err ≠ none ∧
    received (op.run (Close d w).dotter (Close d w).world).world.events =
      received (Close d w).world.events := by
  obtain ⟨_, _, _, _, hclosed⟩ := Close_summary d w
  obtain ⟨_, _, _, _, _, _, h6, _⟩ := Op_run_summary op (Close d w).dotter (Close d w).world
  obtain ⟨h1, h2⟩ := h6 hclosed
  exact ⟨h2, by rw [h2]; simp, h1⟩

/-! ## Lines -/

theorem digitChar_ne_newline (k : Nat) : Nat.digitChar (k % 10) ≠ '\n' := by
  have hk : k % 10 < 10 := Nat.mod_lt _ (by decide)
  generalize k % 10 = m at hk
  interval_cases m <;> decide

theorem newline_toDigitsCore (fuel n : Nat) (ds : List Char) (h : '\n' ∉ ds) :
    '\n' ∉ Nat.toDigitsCore 10 fuel n ds := by
  induction fuel generalizing n ds with
  | zero => simpa [Nat.toDigitsCore] using h
  | succ fuel ih =>
    have hd : '\n' ∉ Nat.digitChar (n % 10) :: ds := by
      intro hm
      rcases List.mem_cons.1 hm with hm | hm
      · exact digitChar_ne_newline n hm.symm
      · exact h hm
    unfold Nat.toDigitsCore
    simp only
    split
    · exact hd
    · exact ih _ _ hd

theorem newline_fmtFloat (v : Float64) : '\n' ∉ fmtFloat v := by
  cases v with
  | nan => decide
  | inf neg => cases neg <;> decide
  | fin neg mant exp =>
    have h1 : '\n' ∉ Nat.toDigits 10 (scaledMicro mant exp / 10 ^ 6) :=
      newline_toDigitsCore _ _ [] (by simp)
    have h2 : ∀ k, '\n' ∉ fracDigits k := by
      intro k hm
      simp only [fracDigits, List.mem_map] at hm
      obtain ⟨i, _, hi⟩ := hm
      exact digitChar_ne_newline _ hi
    intro hm
    simp only [fmtFloat, List.mem_append] at hm
    rcases hm with ((hm | hm) | hm) | hm
    · cases neg <;> simp at hm
    · exact h1 hm
    · simp at hm
    · exact h2 _ hm

theorem newline_esc (node : GoString) : '\n' ∈ esc node ↔ '\n' ∈ node := by
  simp [esc, mem_Replace_single]

theorem newline_Join (xs : List GoString) :
    '\n' ∈ Join xs [';'] ↔ ∃ x ∈ xs, '\n' ∈ x := by
  induction xs with
  | nil => simp [Join]
  | cons a rest ih =>
    cases rest with
    | nil => simp [Join]
    | cons b rest2 =>
      simp only [Join, List.mem_append, ih]
      simp

theorem newline_last (x : GoString) :
    (x ++ ['\n']).getLast? = some '\n' ∧ ('\n' ∉ (x ++ ['\n']).dropLast ↔ '\n' ∉ x) := by
  simp

/-- C9, refuted: a label with a newline in it makes `SetLabel` write a
statement that spans two lines. -/
theorem SetLabel_newline_spans_lines :
    attempts (SetLabel sampleDotter.sent sampleWorld "a".toList "x\ny".toList).world.events =
      ["a [label=\"x\ny\"]\n".toList] ∧
    '\n' ∈ ("a [label=\"x\ny\"]\n".toList).dropLast := by
  decide

/-- C9 as amended: the statement of every emitting operation ends with a
newline, and it contains no other newline exactly when no string argument of
the call (node name, label, cluster name, shape, direction) contains one; the
numeric arguments never bring one in. -/
theorem statement_one_line (op : Op) (d : Dotter) (w : World) :
    ∃ stmt : GoString,
      attempts (op.run d w).world.events = attempts w.events ++ preamble d ++ [stmt] ∧
      stmt.getLast? = some '\n' ∧
      ('\n' ∉ stmt.dropLast ↔ op.newlineFree) := by
  cases op with
  | SetLink a b =>
    by_cases hk : d.graphType = GRAPH_DIRECTED
    · refine ⟨_, by simp only [Op.run, SetLink, if_pos hk]; exact sendCmd_attempts _ _ _ _,
        (newline_last _).1, ?_⟩
      rw [(newline_last _).2]
      simp [Sprintf, Op.newlineFree, newline_esc]
    · refine ⟨_, by simp only [Op.run, SetLink, if_neg hk]; exact sendCmd_attempts _ _ _ _,
        (newline_last _).1, ?_⟩
      rw [(newline_last _).2]
      simp [Sprintf, Op.newlineFree, newline_esc]
  | SetLabel n l =>
    refine ⟨_, sendCmd_attempts _ _ _ _, (newline_last _).1, ?_⟩
    rw [(newline_last _).2]
    simp [Sprintf, Op.newlineFree, newline_esc]
  | SetNodeShape n sh =>
    refine ⟨_, sendCmd_attempts _ _ _ _, (newline_last _).1, ?_⟩
    rw [(newline_last _).2]
    simp [Sprintf, Op.newlineFree, newline_esc]
  | SetNodeSep v =>
    refine ⟨_, sendCmd_attempts _ _ _ _, (newline_last _).1, ?_⟩
    rw [(newline_last _).2]
    simp [Sprintf, Op.newlineFree, newline_fmtFloat]
  | SetRankSep v =>
    refine ⟨_, sendCmd_attempts _ _ _ _, (newline_last _).1, ?_⟩
    rw [(newline_last _).2]
    simp [Sprintf, Op.newlineFree, newline_fmtFloat]
  | SetRankDir dir =>
    refine ⟨_, sendCmd_attempts _ _ _ _, (newline_last _).1, ?_⟩
    rw [(newline_last _).2]
    simp [Sprintf, Op.newlineFree]
  | SetEdgeWeight v =>
    refine ⟨_, sendCmd_attempts _ _ _ _, (newline_last _).1, ?_⟩
    rw [(newline_last _).2]
    simp [Sprintf, Op.newlineFree, newline_fmtFloat]
  | CreateCluster n ns =>
    refine ⟨Sprintf "subgraph cluster_%s \x7blabel=\"%s\";%s\x7d".toList
      [Arg.str n, Arg.str n, Arg.str (Join (sanitizeNodes ns) [';'])] ++ ['\n'], ?_,
      (newline_last _).1, ?_⟩
    · simp only [Op.run, CreateCluster]
      rw [sendCmd_attempts]
      simp [attempts_append, attempts]
    · rw [(newline_last _).2]
      simp [Sprintf, Op.newlineFree, newline_Join, sanitizeNodes_eq, newline_esc]

/-! ## Closing a session -/

theorem emitFrom_events (dbg : Bool) (acc : World × Option GoError) (cmds : List GoString) :
    ∃ evs : List Event, (emitFrom dbg acc cmds).1.events = acc.1.events ++ evs ∧
      ∀ e ∈ evs, e ≠ Event.closeStdin ∧ e ≠ Event.wait := by
  induction cmds generalizing acc with
  | nil => exact ⟨[], by simp [emitFrom], by simp⟩
  | cons c cs ih =>
    obtain ⟨evs, h1, h2⟩ :=
      ih (WriteString (if dbg then Printf acc.1 "dot> %s".toList [Arg.str c] else acc.1) c)
    refine ⟨(if dbg then [Event.print ("dot> ".toList ++ c)] else []) ++
      [Event.write c (WriteString (if dbg then Printf acc.1 "dot> %s".toList [Arg.str c]
        else acc.1) c).2] ++ evs, ?_, ?_⟩
    · simp only [emitFrom]
      rw [h1, WriteString_events, echo_events]
      simp
    · intro e he
      rcases List.mem_append.1 he with he | he
      · rcases List.mem_append.1 he with he | he
        · cases dbg <;> simp at he
          subst he
          exact ⟨by simp, by simp⟩
        · simp at he
          subst he
          exact ⟨by simp, by simp⟩
      · exact h2 e he

theorem sendCmd_events (d : Dotter) (w : World) (format : GoString) (args : List Arg) :
    ∃ evs : List Event, (sendCmd d w format args).world.events = w.events ++ evs ∧
      attempts evs = preamble d ++ [Sprintf format args ++ ['\n']] ∧
      ∀ e ∈ evs, e ≠ Event.closeStdin ∧ e ≠ Event.wait := by
  obtain ⟨evs, h1, h2⟩ := emitFrom_events d.Debug (w, none)
    (preamble d ++ [Sprintf format args ++ ['\n']])
  have h3 := sendCmd_attempts d w format args
  rw [sendCmd_eq] at h3 ⊢
  simp only [emitAll] at h3 ⊢
  rw [h1, attempts_append, List.append_assoc] at h3
  exact ⟨evs, h1, List.append_cancel_left h3, h2⟩

theorem Wait_result_frame (w w2 : World) (h1 : w2.started = w.started)
    (h2 : w2.waited = w.waited) (h3 : w2.exitErr = w.exitErr) : (Wait w2).2 = (Wait w).2 := by
  unfold Wait
  rw [h1, h2, h3]
  split
  · rfl
  · split <;> rfl

theorem Close_err (d : Dotter) (w : World) : (Close d w).err = waitResult w := by
  obtain ⟨_, k2, k3, k4, _⟩ := sendCmd_frame d w ['}'] []
  simp only [Close, waitResult]
  exact Wait_result_frame w _ (by simpa [closePipe] using k2) (by simpa [closePipe] using k3)
    (by simpa [closePipe] using k4)

/-- C10: `Close` performs, in this order, the attempt to write the closing
command (after the strictness keyword and the header if nothing was sent
before), the close of the input pipe and the wait for the subprocess; what it
returns is the result of that wait, nil exactly when the wait reports no
error, and it is the same whatever the writes and the pipe do. -/
theorem Close_order_and_result (d : Dotter) (w : World) :
    (∃ evs : List Event,
      (Close d w).world.events = w.events ++ evs ++ [Event.closeStdin, Event.wait] ∧
      attempts evs = preamble d ++ [closingCmd] ∧
      ∀ e ∈ evs, e ≠ Event.closeStdin ∧ e ≠ Event.wait) ∧
    (Close d w).err = waitResult w ∧
    ((Close d w).err = none ↔ waitResult w = none) ∧
    (∀ (faults : List (Option GoError)) (closed : Bool),
      (Close d { w with faults := faults, stdinClosed := closed }).err = (Close d w).err) := by
  refine ⟨?_, Close_err d w, by rw [Close_err], ?_⟩
  · obtain ⟨evs, h1, h2, h3⟩ := sendCmd_events d w ['}'] []
    rw [Sprintf_closing] at h2
    exact ⟨evs, by rw [Close_events, h1], h2, h3⟩
  · intro faults closed
    rw [Close_err, Close_err]
    exact Wait_result_frame w _ rfl rfl rfl

/-! ## Sanitization as one substitution -/

/-- The three passes of `esc` amount to one pass that substitutes each
character on its own. -/
theorem esc_flatMap (s : GoString) : esc s = s.flatMap substChar := by
  unfold esc
  simp only [Replace_single, List.flatMap_assoc]
  congr 1
  funext c
  by_cases h1 : c = '.'
  · subst h1; decide
  · by_cases h2 : c = '/'
    · subst h2; decide
    · by_cases h3 : c = '-'
      · subst h3; decide
      · simp [substChar, h1, h2, h3]

theorem flatMap_substChar_clean (s : GoString) (h1 : '.' ∉ s) (h2 : '/' ∉ s) (h3 : '-' ∉ s) :
    s.flatMap substChar = s := by
  induction s with
  | nil => rfl
  | cons c cs ih =>
    simp only [List.mem_cons, not_or] at h1 h2 h3
    have e : substChar c = [c] := by
      simp [substChar, Ne.symm h1.1, Ne.symm h2.1, Ne.symm h3.1]
    simp [List.flatMap_cons, e, ih h1.2 h2.2 h3.2]

theorem esc_clean (s : GoString) : '.' ∉ esc s ∧ '/' ∉ esc s ∧ '-' ∉ esc s := by
  refine ⟨fun h => ?_, fun h => ?_, fun h => ?_⟩ <;>
    rcases mem_esc s _ h with ⟨_, h1, h2, h3⟩ | h4 <;>
    first
      | exact absurd rfl h1
      | exact absurd rfl h2
      | exact absurd rfl h3
      | exact absurd h4 (by decide)

theorem esc_esc (s : GoString) : esc (esc s) = esc s := by
  obtain ⟨h1, h2, h3⟩ := esc_clean s
  rw [esc_flatMap (esc s)]
  exact flatMap_substChar_clean _ h1 h2 h3

/-- C16: the three successive replace-all passes of `esc` compute the single
simultaneous substitution of the specification (`DOT` for `.`, `SLASH` for `/`,
`HYPHEN` for `-`, every other character kept, in order); in particular a string
with none of the three characters comes back unchanged, quotes, blanks and
brackets included. -/
theorem esc_refines_escSpec (s : GoString) :
    esc s = escSpec s ∧
    ('.' ∉ s → '/' ∉ s → '-' ∉ s → esc s = s) := by
  refine ⟨esc_flatMap s, fun h1 h2 h3 => ?_⟩
  rw [esc_flatMap]
  exact flatMap_substChar_clean s h1 h2 h3

/-- Witness for C16: a name with all three characters, and one with a quote, a
blank and brackets that is left alone. -/
theorem esc_refines_escSpec_witness :
    esc "a.b/c-d".toList = "aDOTbSLASHcHYPHENd".toList ∧
    esc "say \"hi\" [x]".toList = "say \"hi\" [x]".toList :=
  ⟨(esc_refines_escSpec "a.b/c-d".toList).1,
   (esc_refines_escSpec "say \"hi\" [x]".toList).2 (by decide) (by decide) (by decide)⟩

/-- C17: `esc` is idempotent, so a name that was sanitized already yields the
same statement as the original name in `SetLink`, `SetLabel` and
`SetNodeShape`, and the same member list in `CreateCluster`. -/
theorem esc_idempotent (s : GoString) :
    esc (esc s) = esc s ∧
    (∀ (d : Dotter) (w : World) (t : GoString),
      SetLink d w (esc s) (esc t) = SetLink d w s t) ∧
    (∀ (d : Dotter) (w : World) (label : GoString),
      SetLabel d w (esc s) label = SetLabel d w s label) ∧
    (∀ (d : Dotter) (w : World) (shape : NodeShape),
      SetNodeShape d w (esc s) shape = SetNodeShape d w s shape) ∧
    (∀ nodes : List GoString, sanitizeNodes (nodes.map esc) = sanitizeNodes nodes) := by
  refine ⟨esc_esc s, ?_, ?_, ?_, ?_⟩
  · intro d w t
    simp only [SetLink, esc_esc]
  · intro d w label
    simp only [SetLabel, esc_esc]
  · intro d w shape
    simp only [SetNodeShape, esc_esc]
  · intro nodes
    rw [sanitizeNodes_eq, sanitizeNodes_eq, List.map_map]
    apply List.map_congr_left
    intro a _
    exact esc_esc a

/-! ## What a call leaves of the session -/

theorem sent_sent (d : Dotter) : d.sent.sent = d.sent := rfl

theorem runFrom_dotter (calls : List Call) (r : Result) :
    (runFrom r calls).dotter = if calls = [] then r.dotter else r.dotter.sent := by
  induction calls generalizing r with
  | nil => rfl
  | cons c cs ih =>
    obtain ⟨_, _, h2, _⟩ := Call_run_summary c r.dotter r.world
    simp only [runFrom]
    rw [ih, h2]
    cases cs <;> simp [sent_sent]

/-- C13: every public operation (the eight emitting ones and `Close`), whatever
its arguments and whether or not its writes succeed, leaves the graph kind and
the strictness flag of the session as they were and leaves the header flag
false; over any run of calls the two fields stay put and a header flag that is
false stays false. -/
theorem session_fields_frame (c : Call) (d : Dotter) (w : World) :
    (c.run d w).dotter.graphType = d.graphType ∧
    (c.run d w).dotter.isStrict = d.isStrict ∧
    (c.run d w).dotter.isFirstCmd = false ∧
    (∀ calls : List Call,
      (runCalls d w calls).dotter.graphType = d.graphType ∧
      (runCalls d w calls).dotter.isStrict = d.isStrict ∧
      (d.isFirstCmd = false → (runCalls d w calls).dotter.isFirstCmd = false)) := by
  obtain ⟨_, _, h2, _⟩ := Call_run_summary c d w
  refine ⟨by rw [h2]; rfl, by rw [h2]; rfl, by rw [h2]; rfl, ?_⟩
  intro calls
  unfold runCalls
  rw [runFrom_dotter]
  by_cases hc : calls = []
  · simp [hc]
  · simp [hc, Dotter.sent]

/-- Witness for C13: a session past its header keeps its flag false through a
statement, a `Close` and a statement on the closed pipe. -/
theorem session_fields_frame_witness :
    (runCalls sampleDotter.sent sampleWorld
      [Call.emit (Op.SetRankDir DIR_LR), Call.close,
        Call.emit (Op.SetNodeSep (Float64.fin false 1 (-1)))]).dotter.isFirstCmd = false :=
  ((session_fields_frame Call.close sampleDotter.sent sampleWorld).2.2.2 _).2.2 rfl

/-! ## Construction -/

/-- C12: the renderer is invoked with the arguments `-T<oType>` and `-O` when
writing to a file without a name, `-T<oType>` and `-o<fname>` when writing to a
named file, and `-T<oType>` alone when streaming to standard output, whatever
`fname` is then; the argument vector starts with the resolved path. -/
theorem NewDotterEx_arguments (env : Env) (oType : OutputType) (prog : Program)
    (gType : GraphType) (isStrict writeToFile : Bool) (fname dotPath : GoString)
    (hlook : env.lookPath prog = Except.ok dotPath)
    (hin : env.stdinPipeErr = none)
    (hout : writeToFile = false → env.stdoutPipeErr = none) :
    ∃ (d : Dotter) (w : World),
      NewDotterEx env oType prog gType isStrict writeToFile fname =
        Outcome.returned (some (d, w), env.startErr) ∧
      d.instance_.Path = dotPath ∧
      d.instance_.Args = dotPath ::
        (if writeToFile then
          (if fname = [] then ["-T".toList ++ oType, "-O".toList]
           else ["-T".toList ++ oType, "-o".toList ++ fname])
         else ["-T".toList ++ oType]) := by
  cases writeToFile with
  | true =>
    by_cases hf : fname = []
    · exact ⟨_, _, by simp [NewDotterEx, hlook, hin, hf]; exact ⟨rfl, rfl⟩,
        rfl, by simp [Command, hf]⟩
    · exact ⟨_, _, by simp [NewDotterEx, hlook, hin, hf]; exact ⟨rfl, rfl⟩,
        rfl, by simp [Command, hf]⟩
  | false =>
    have ho := hout rfl
    exact ⟨_, _, by simp [NewDotterEx, hlook, hin, ho]; exact ⟨rfl, rfl⟩,
      rfl, by simp [Command]⟩

/-- Witness for C12: PNG output streamed to standard output, the file name
being ignored. -/
theorem NewDotterEx_arguments_witness :
    ∃ (d : Dotter) (w : World),
      NewDotterEx envWithDot OUT_PNG PROG_NEATO GRAPH_UNDIRECTED false false "out".toList =
        Outcome.returned (some (d, w), envWithDot.startErr) ∧
      d.instance_.Path = "/usr/bin/neato".toList ∧
      d.instance_.Args = "/usr/bin/neato".toList ::
        (if false = true then
          (if "out".toList = [] then ["-T".toList ++ OUT_PNG, "-O".toList]
           else ["-T".toList ++ OUT_PNG, "-o".toList ++ "out".toList])
         else ["-T".toList ++ OUT_PNG]) :=
  NewDotterEx_arguments envWithDot OUT_PNG PROG_NEATO GRAPH_UNDIRECTED false false
    "out".toList "/usr/bin/neato".toList rfl rfl (fun _ => rfl)

/-- The three calls of the scenario on a fresh strict directed session with a
healthy pipe and nothing sent before. -/
theorem scenario_received (d : Dotter) (w : World) (hd : d.graphType = GRAPH_DIRECTED)
    (hs : d.isStrict = true) (hf : d.isFirstCmd = true) (hw : Healthy w)
    (he : w.events = []) :
    received (runCalls d w
        [Call.emit (Op.SetLink "a".toList "b".toList),
         Call.emit (Op.SetLabel "a".toList "Start".toList),
         Call.close]).world.events =
      ["strict\n".toList, "digraph\x7b\n".toList, "a -> b\n".toList,
       "a [label=\"Start\"]\n".toList, "\x7d\n".toList] := by
  have e1 : SetLink d w "a".toList "b".toList =
      sendCmd d w "%s -> %s".toList [Arg.str (esc "a".toList), Arg.str (esc "b".toList)] := by
    simp only [SetLink, if_pos hd]
  obtain ⟨k1, k2, _⟩ := sendCmd_healthy d w "%s -> %s".toList
    [Arg.str (esc "a".toList), Arg.str (esc "b".toList)] hw
  rw [← e1] at k1 k2
  have hd1 : (SetLink d w "a".toList "b".toList).dotter = d.sent := by
    rw [e1, sendCmd_dotter]
  obtain ⟨m1, m2, _⟩ := sendCmd_healthy (SetLink d w "a".toList "b".toList).dotter
    (SetLink d w "a".toList "b".toList).world
    "%s [label=\"%s\"]".toList [Arg.str (esc "a".toList), Arg.str "Start".toList] k1
  have hd2 : (SetLabel (SetLink d w "a".toList "b".toList).dotter
      (SetLink d w "a".toList "b".toList).world "a".toList "Start".toList).dotter = d.sent := by
    simp only [SetLabel]
    rw [sendCmd_dotter, hd1, sent_sent]
  obtain ⟨_, _, _, n1, _⟩ := Close_summary
    (SetLabel (SetLink d w "a".toList "b".toList).dotter
      (SetLink d w "a".toList "b".toList).world "a".toList "Start".toList).dotter
    (SetLabel (SetLink d w "a".toList "b".toList).dotter
      (SetLink d w "a".toList "b".toList).world "a".toList "Start".toList).world
  have hhead : headerCmd d = "digraph\x7b\n".toList := by
    rw [headerCmd_of_kind d (Or.inl hd), hd]
    decide
  simp only [runCalls, runFrom, Call.run, Op.run]
  rw [n1 m1, hd2, preamble_sent]
  simp only [SetLabel]
  rw [m2, hd1, preamble_sent, k2, he, preamble_fresh d hf, hs, hhead]
  decide

/-- C11: on the session `NewDotter(OUT_SVG, GRAPH_DIRECTED, fname)` builds
(renderer `dot`, strict), the calls `SetLink("a","b")`, `SetLabel("a","Start")`
and `Close()`, all writes succeeding, deliver to the subprocess the five lines
`strict`, `digraph{`, `a -> b`, `a [label="Start"]` and `}` in that order and
nothing else. -/
theorem NewDotter_scenario (env : Env) (fname dotPath : GoString)
    (hlook : env.lookPath PROG_DOT = Except.ok dotPath)
    (hin : env.stdinPipeErr = none)
    (hwrites : ∀ o ∈ env.faults, o = none) :
    ∃ (d : Dotter) (w : World),
      NewDotter env OUT_SVG GRAPH_DIRECTED fname =
        Outcome.returned (some (d, w), env.startErr) ∧
      received (runCalls d w
          [Call.emit (Op.SetLink "a".toList "b".toList),
           Call.emit (Op.SetLabel "a".toList "Start".toList),
           Call.close]).world.events =
        ["strict\n".toList, "digraph\x7b\n".toList, "a -> b\n".toList,
         "a [label=\"Start\"]\n".toList, "\x7d\n".toList] ∧
      (received (runCalls d w
          [Call.emit (Op.SetLink "a".toList "b".toList),
           Call.emit (Op.SetLabel "a".toList "Start".toList),
           Call.close]).world.events).flatten =
        "strict\ndigraph\x7b\na -> b\na [label=\"Start\"]\n\x7d\n".toList := by
  have hret : ∃ (d : Dotter) (w : World),
      NewDotter env OUT_SVG GRAPH_DIRECTED fname =
        Outcome.returned (some (d, w), env.startErr) ∧
      d.graphType = GRAPH_DIRECTED ∧ d.isStrict = true ∧ d.isFirstCmd = true ∧
      w.stdinClosed = false ∧ w.faults = env.faults ∧ w.events = [] := by
    by_cases hf : fname = []
    · exact ⟨_, _, by simp [NewDotter, NewDotterEx, hlook, hin, hf]; exact ⟨rfl, rfl⟩,
        rfl, rfl, rfl, rfl, rfl, rfl⟩
    · exact ⟨_, _, by simp [NewDotter, NewDotterEx, hlook, hin, hf]; exact ⟨rfl, rfl⟩,
        rfl, rfl, rfl, rfl, rfl, rfl⟩
  obtain ⟨d, w, hc, h1, h2, h3, h4, h5, h6⟩ := hret
  have hw : Healthy w := ⟨h4, by rw [h5]; exact hwrites⟩
  have key := scenario_received d w h1 h2 h3 hw h6
  exact ⟨d, w, hc, key, by rw [key]; decide⟩

/-- Witness for C11: the scenario on a system with `dot` installed. -/
theorem NewDotter_scenario_witness :
    ∃ (d : Dotter) (w : World),
      NewDotter envWithDot OUT_SVG GRAPH_DIRECTED "graph.svg".toList =
        Outcome.returned (some (d, w), envWithDot.startErr) ∧
      received (runCalls d w
          [Call.emit (Op.SetLink "a".toList "b".toList),
           Call.emit (Op.SetLabel "a".toList "Start".toList),
           Call.close]).world.events =
        ["strict\n".toList, "digraph\x7b\n".toList, "a -> b\n".toList,
         "a [label=\"Start\"]\n".toList, "\x7d\n".toList] ∧
      (received (runCalls d w
          [Call.emit (Op.SetLink "a".toList "b".toList),
           Call.emit (Op.SetLabel "a".toList "Start".toList),
           Call.close]).world.events).flatten =
        "strict\ndigraph\x7b\na -> b\na [label=\"Start\"]\n\x7d\n".toList :=
  NewDotter_scenario envWithDot "graph.svg".toList "/usr/bin/dot".toList rfl rfl
    (by simp [envWithDot])

/-! ## The debug echo -/

theorem emitFrom_printed (dbg : Bool) (acc : World × Option GoError) (cmds : List GoString) :
    printed (emitFrom dbg acc cmds).1.events =
      printed acc.1.events ++ (if dbg then cmds.map echoLine else []) := by
  induction cmds generalizing acc with
  | nil => cases dbg <;> simp [emitFrom]
  | cons c cs ih =>
    simp only [emitFrom]
    rw [ih, WriteString_events, printed_append, echo_events, printed_append]
    cases dbg <;> simp [printed, echoLine]

theorem sendCmd_printed (d : Dotter) (w : World) (format : GoString) (args : List Arg) :
    printed (sendCmd d w format args).world.events =
      printed w.events ++
        (if d.Debug then (preamble d ++ [Sprintf format args ++ ['\n']]).map echoLine
         else []) := by
  rw [sendCmd_eq]
  exact emitFrom_printed d.Debug (w, none) _

/-- Every emitting operation is one call of `sendCmd` whose format and operands
depend on the session through its graph type only. -/
theorem Op_run_shape (op : Op) (g : GraphType) :
    ∃ (pre : List Event) (format : GoString) (args : List Arg),
      (pre = [] ∨ ∃ t, pre = [Event.log t]) ∧
      ∀ (d : Dotter) (w : World), d.graphType = g →
        op.run d w = sendCmd d { w with events := w.events ++ pre } format args := by
  cases op with
  | SetLink a b =>
    by_cases hk : g = GRAPH_DIRECTED
    · refine ⟨[], "%s -> %s".toList, [Arg.str (esc a), Arg.str (esc b)], Or.inl rfl, ?_⟩
      intro d w hd
      simp only [Op.run, SetLink, hd, if_pos hk, List.append_nil]
    · refine ⟨[], "%s -- %s".toList, [Arg.str (esc a), Arg.str (esc b)], Or.inl rfl, ?_⟩
      intro d w hd
      simp only [Op.run, SetLink, hd, if_neg hk, List.append_nil]
  | SetLabel n l =>
    refine ⟨[], "%s [label=\"%s\"]".toList, [Arg.str (esc n), Arg.str l], Or.inl rfl, ?_⟩
    intro d w _
    simp only [Op.run, SetLabel, List.append_nil]
  | SetNodeShape n sh =>
    refine ⟨[], "%s [shape=\"%s\"]".toList, [Arg.str (esc n), Arg.str sh], Or.inl rfl, ?_⟩
    intro d w _
    simp only [Op.run, SetNodeShape, List.append_nil]
  | SetNodeSep v =>
    refine ⟨[], "nodesep=%f".toList, [Arg.flt v], Or.inl rfl, ?_⟩
    intro d w _
    simp only [Op.run, SetNodeSep, List.append_nil]
  | SetRankSep v =>
    refine ⟨[], "ranksep=%f".toList, [Arg.flt v], Or.inl rfl, ?_⟩
    intro d w _
    simp only [Op.run, SetRankSep, List.append_nil]
  | SetRankDir dir =>
    refine ⟨[], "rankdir=%s".toList, [Arg.str dir], Or.inl rfl, ?_⟩
    intro d w _
    simp only [Op.run, SetRankDir, List.append_nil]
  | SetEdgeWeight v =>
    refine ⟨[], "edge [weight=%f];".toList, [Arg.flt v], Or.inl rfl, ?_⟩
    intro d w _
    simp only [Op.run, SetEdgeWeight, List.append_nil]
  | CreateCluster n ns =>
    refine ⟨[Event.log (Sprintf "Creating cluster %s with %s".toList
        [Arg.str n, Arg.str (fmtStrings ns)])],
      "subgraph cluster_%s \x7blabel=\"%s\";%s\x7d".toList,
      [Arg.str n, Arg.str n, Arg.str (Join (sanitizeNodes ns) [';'])], Or.inr ⟨_, rfl⟩, ?_⟩
    intro d w _
    simp only [Op.run, CreateCluster]

/-- One public call: the commands it hands to the pipe, their echo, and what
is received of them on a healthy pipe. -/
theorem Call_run_echo (c : Call) (d : Dotter) (w : World) :
    ∃ cmds : List GoString,
      attempts (c.run d w).world.events = attempts w.events ++ cmds ∧
      printed (c.run d w).world.events =
        printed w.events ++ (if d.Debug then cmds.map echoLine else []) ∧
      (Healthy w → received (c.run d w).world.events = received w.events ++ cmds) ∧
      (Healthy w → c ≠ Call.close → Healthy (c.run d w).world) := by
  cases c with
  | emit op =>
    obtain ⟨pre, format, args, hpre, hrun⟩ := Op_run_shape op d.graphType
    have ha : attempts (w.events ++ pre) = attempts w.events := by
      rcases hpre with h | ⟨t, h⟩ <;> subst h <;> simp [attempts_append, attempts]
    have hr : received (w.events ++ pre) = received w.events := by
      rcases hpre with h | ⟨t, h⟩ <;> subst h <;> simp [received_append, received]
    have hp : printed (w.events ++ pre) = printed w.events := by
      rcases hpre with h | ⟨t, h⟩ <;> subst h <;> simp [printed_append, printed]
    refine ⟨preamble d ++ [Sprintf format args ++ ['\n']], ?_, ?_, ?_, ?_⟩
    · simp only [Call.run]
      rw [hrun d w rfl, sendCmd_attempts]
      simp only [ha, List.append_assoc]
    · simp only [Call.run]
      rw [hrun d w rfl, sendCmd_printed]
      simp only [hp]
    · intro hw
      have hw0 : Healthy { w with events := w.events ++ pre } := hw
      simp only [Call.run]
      rw [hrun d w rfl, (sendCmd_healthy d _ format args hw0).2.1]
      simp only [hr, List.append_assoc]
    · intro hw _
      have hw0 : Healthy { w with events := w.events ++ pre } := hw
      simp only [Call.run]
      rw [hrun d w rfl]
      exact (sendCmd_healthy d _ format args hw0).1
  | close =>
    refine ⟨preamble d ++ [closingCmd], ?_, ?_, ?_, ?_⟩
    · simp only [Call.run]
      rw [(Close_summary d w).2.1, List.append_assoc]
    · simp only [Call.run]
      rw [Close_events, printed_append, sendCmd_printed, Sprintf_closing]
      simp [printed]
    · intro hw
      simp only [Call.run]
      rw [(Close_summary d w).2.2.2.1 hw, List.append_assoc]
    · intro _ h
      exact absurd rfl h

theorem Call_run_Debug (c : Call) (d : Dotter) (w : World) :
    (c.run d w).dotter.Debug = d.Debug := by
  obtain ⟨_, _, h2, _⟩ := Call_run_summary c d w
  rw [h2]
  rfl

/-- A run of public calls: the commands handed to the pipe, their echo, and
what is received on a healthy pipe when no `Close` comes before the last call. -/
theorem runFrom_echo (calls : List Call) (r : Result) :
    ∃ cmds : List GoString,
      attempts (runFrom r calls).world.events = attempts r.world.events ++ cmds ∧
      printed (runFrom r calls).world.events =
        printed r.world.events ++ (if r.dotter.Debug then cmds.map echoLine else []) ∧
      (Healthy r.world → (∀ c ∈ calls.dropLast, c ≠ Call.close) →
        received (runFrom r calls).world.events = received r.world.events ++ cmds) := by
  induction calls generalizing r with
  | nil => exact ⟨[], by simp [runFrom], by simp [runFrom], by simp [runFrom]⟩
  | cons c cs ih =>
    obtain ⟨cmds1, a1, p1, r1, hh1⟩ := Call_run_echo c r.dotter r.world
    obtain ⟨cmds2, a2, p2, r2⟩ := ih (c.run r.dotter r.world)
    rw [Call_run_Debug] at p2
    refine ⟨cmds1 ++ cmds2, ?_, ?_, ?_⟩
    · simp only [runFrom]
      rw [a2, a1, List.append_assoc]
    · simp only [runFrom]
      rw [p2, p1]
      cases r.dotter.Debug <;> simp
    · intro hw hno
      simp only [runFrom]
      cases cs with
      | nil =>
        have e2 : cmds2 = [] := by
          simpa [runFrom] using a2
        subst e2
        simp only [runFrom, List.append_nil]
        exact r1 hw
      | cons c2 cs2 =>
        have hc : c ≠ Call.close := hno c (by simp [List.dropLast])
        have hw1 := hh1 hw hc
        have hno2 : ∀ x ∈ (c2 :: cs2).dropLast, x ≠ Call.close := by
          intro x hx
          exact hno x (by simp only [List.dropLast]; exact List.mem_cons_of_mem _ hx)
        rw [r2 hw1 hno2, r1 hw, List.append_assoc]

/-- C14: over any run of public calls the text sent to standard output is, with
`Debug` set, exactly the commands handed to the input pipe (the keyword
`strict`, the header and the closing command included), in the same order, each
behind the marker `dot> `; with `Debug` clear nothing is sent there.  The echo
precedes the write and does not depend on its outcome; on a healthy pipe with
no `Close` before the last call the commands handed over are the commands
received. -/
theorem debug_echo (d : Dotter) (w : World) (calls : List Call) :
    ∃ cmds : List GoString,
      attempts (runCalls d w calls).world.events = attempts w.events ++ cmds ∧
      printed (runCalls d w calls).world.events =
        printed w.events ++ (if d.Debug then cmds.map echoLine else []) ∧
      (printed (runCalls d w calls).world.events).flatten =
        (printed w.events).flatten ++
          (if d.Debug then (cmds.map (fun c => "dot> ".toList ++ c)).flatten else []) ∧
      (Healthy w → (∀ c ∈ calls.dropLast, c ≠ Call.close) →
        received (runCalls d w calls).world.events = received w.events ++ cmds) := by
  obtain ⟨cmds, h1, h2, h3⟩ := runFrom_echo calls ⟨d, w, none⟩
  refine ⟨cmds, h1, h2, ?_, h3⟩
  unfold runCalls
  rw [h2]
  cases hd : d.Debug
  · simp [hd]
  · simp only [hd, if_true, List.flatten_append]
    rfl

/-- Witness for C14: a strict session with `Debug` set echoes the keyword, the
header, the statement and the closing command. -/
theorem debug_echo_witness :
    ∃ cmds : List GoString,
      attempts (runCalls { sampleDotter with Debug := true } sampleWorld
          [Call.emit (Op.SetRankDir DIR_LR), Call.close]).world.events =
        attempts sampleWorld.events ++ cmds ∧
      printed (runCalls { sampleDotter with Debug := true } sampleWorld
          [Call.emit (Op.SetRankDir DIR_LR), Call.close]).world.events =
        printed sampleWorld.events ++
          (if ({ sampleDotter with Debug := true } : Dotter).Debug then cmds.map echoLine
           else []) ∧
      (printed (runCalls { sampleDotter with Debug := true } sampleWorld
          [Call.emit (Op.SetRankDir DIR_LR), Call.close]).world.events).flatten =
        (printed sampleWorld.events).flatten ++
          (if ({ sampleDotter with Debug := true } : Dotter).Debug then
            (cmds.map (fun c => "dot> ".toList ++ c)).flatten else []) ∧
      (Healthy sampleWorld →
        (∀ c ∈ [Call.emit (Op.SetRankDir DIR_LR), Call.close].dropLast, c ≠ Call.close) →
        received (runCalls { sampleDotter with Debug := true } sampleWorld
          [Call.emit (Op.SetRankDir DIR_LR), Call.close]).world.events =
          received sampleWorld.events ++ cmds) :=
  debug_echo { sampleDotter with Debug := true } sampleWorld
    [Call.emit (Op.SetRankDir DIR_LR), Call.close]

/-! ## The debug flag and the protocol -/

theorem silent_append (xs ys : List Event) : silent (xs ++ ys) = silent xs ++ silent ys := by
  induction xs with
  | nil => rfl
  | cons e es ih => cases e <;> simp [silent, ih]

theorem received_silent (es : List Event) : received (silent es) = received es := by
  induction es with
  | nil => rfl
  | cons e es ih =>
    cases e with
    | write c o => cases o <;> simp [silent, received, ih]
    | _ => simp [silent, received, ih]

theorem attempts_silent (es : List Event) : attempts (silent es) = attempts es := by
  induction es with
  | nil => rfl
  | cons e es ih => cases e <;> simp [silent, attempts, ih]

theorem sameProtocol_refl (w : World) : sameProtocol w w :=
  ⟨rfl, rfl, rfl, rfl, rfl, rfl, rfl⟩

theorem sameProtocol_push (w1 w2 : World) (evs : List Event) (h : sameProtocol w1 w2) :
    sameProtocol { w1 with events := w1.events ++ evs } { w2 with events := w2.events ++ evs } := by
  obtain ⟨h1, h2, h3, h4, h5, h6, h7⟩ := h
  exact ⟨by simp only [silent_append, h1], h2, h3, h4, h5, h6, h7⟩

theorem echo_sameProtocol (b1 b2 : Bool) (w1 w2 : World) (cmd : GoString)
    (h : sameProtocol w1 w2) :
    sameProtocol (if b1 then Printf w1 "dot> %s".toList [Arg.str cmd] else w1)
      (if b2 then Printf w2 "dot> %s".toList [Arg.str cmd] else w2) := by
  obtain ⟨h1, h2, h3, h4, h5, h6, h7⟩ := h
  cases b1 <;> cases b2 <;>
    exact ⟨by simp [Printf, silent_append, silent, h1], h2, h3, h4, h5, h6, h7⟩

theorem WriteString_sameProtocol (w1 w2 : World) (cmd : GoString) (h : sameProtocol w1 w2) :
    sameProtocol (WriteString w1 cmd).1 (WriteString w2 cmd).1 ∧
    (WriteString w1 cmd).2 = (WriteString w2 cmd).2 := by
  obtain ⟨h1, h2, h3, h4, h5, h6, h7⟩ := h
  unfold WriteString
  rw [h2, h3]
  split
  · exact ⟨⟨by simp [silent_append, h1], rfl, rfl, h4, h5, h6, h7⟩, rfl⟩
  · split
    · exact ⟨⟨by simp [silent_append, h1], rfl, rfl, h4, h5, h6, h7⟩, rfl⟩
    · exact ⟨⟨by simp [silent_append, h1], rfl, rfl, h4, h5, h6, h7⟩, rfl⟩

theorem emitFrom_sameProtocol (b1 b2 : Bool) (cmds : List GoString)
    (acc1 acc2 : World × Option GoError)
    (h : sameProtocol acc1.1 acc2.1) (he : acc1.2 = acc2.2) :
    sameProtocol (emitFrom b1 acc1 cmds).1 (emitFrom b2 acc2 cmds).1 ∧
    (emitFrom b1 acc1 cmds).2 = (emitFrom b2 acc2 cmds).2 := by
  induction cmds generalizing acc1 acc2 with
  | nil => exact ⟨h, he⟩
  | cons c cs ih =>
    simp only [emitFrom]
    obtain ⟨k1, k2⟩ := WriteString_sameProtocol _ _ c (echo_sameProtocol b1 b2 acc1.1 acc2.1 c h)
    exact ih _ _ k1 k2

theorem preamble_withDebug (d : Dotter) (b : Bool) : preamble (d.withDebug b) = preamble d := rfl

theorem sendCmd_sameProtocol (d : Dotter) (b1 b2 : Bool) (w1 w2 : World)
    (format : GoString) (args : List Arg) (h : sameProtocol w1 w2) :
    sameProtocol (sendCmd (d.withDebug b1) w1 format args).world
      (sendCmd (d.withDebug b2) w2 format args).world ∧
    (sendCmd (d.withDebug b1) w1 format args).err =
      (sendCmd (d.withDebug b2) w2 format args).err := by
  rw [sendCmd_eq, sendCmd_eq]
  simp only [preamble_withDebug, emitAll]
  exact emitFrom_sameProtocol _ _ _ (w1, none) (w2, none) h rfl

/-- One public call on two sessions that differ in `Debug` only: same error,
same session fields, environments that differ in the echo only. -/
theorem Call_run_sameProtocol (c : Call) (d : Dotter) (b1 b2 : Bool) (w1 w2 : World)
    (h : sameProtocol w1 w2) :
    sameProtocol (c.run (d.withDebug b1) w1).world (c.run (d.withDebug b2) w2).world ∧
    (c.run (d.withDebug b1) w1).err = (c.run (d.withDebug b2) w2).err ∧
    (c.run (d.withDebug b1) w1).dotter = d.sent.withDebug b1 ∧
    (c.run (d.withDebug b2) w2).dotter = d.sent.withDebug b2 := by
  have hd1 : (c.run (d.withDebug b1) w1).dotter = d.sent.withDebug b1 := by
    obtain ⟨_, _, h2, _⟩ := Call_run_summary c (d.withDebug b1) w1
    rw [h2]; rfl
  have hd2 : (c.run (d.withDebug b2) w2).dotter = d.sent.withDebug b2 := by
    obtain ⟨_, _, h2, _⟩ := Call_run_summary c (d.withDebug b2) w2
    rw [h2]; rfl
  cases c with
  | emit op =>
    obtain ⟨pre, format, args, _, hrun⟩ := Op_run_shape op d.graphType
    obtain ⟨k1, k2⟩ := sendCmd_sameProtocol d b1 b2 _ _ format args
      (sameProtocol_push w1 w2 pre h)
    have e1 : (Call.emit op).run (d.withDebug b1) w1 =
        sendCmd (d.withDebug b1) { w1 with events := w1.events ++ pre } format args :=
      hrun (d.withDebug b1) w1 rfl
    have e2 : (Call.emit op).run (d.withDebug b2) w2 =
        sendCmd (d.withDebug b2) { w2 with events := w2.events ++ pre } format args :=
      hrun (d.withDebug b2) w2 rfl
    rw [e1] at hd1 ⊢
    rw [e2] at hd2 ⊢
    exact ⟨k1, k2, hd1, hd2⟩
  | close =>
    obtain ⟨⟨k1, k2, k3, k4, k5, k6, k7⟩, _⟩ := sendCmd_sameProtocol d b1 b2 w1 w2 ['}'] [] h
    refine ⟨?_, ?_, hd1, hd2⟩
    · simp only [Call.run, Close, sameProtocol, Wait_events, Wait_stdinClosed, closePipe,
        silent_append, k1]
      refine ⟨trivial, trivial, ?_⟩
      unfold Wait
      simp only [k3, k4, k5, k6, k7]
      split
      · exact ⟨rfl, rfl, rfl, rfl, rfl⟩
      · split <;> exact ⟨rfl, rfl, rfl, rfl, rfl⟩
    · simp only [Call.run, Close]
      exact Wait_result_frame _ _ (by simp [closePipe, k4]) (by simp [closePipe, k5])
        (by simp [closePipe, k6])

theorem runFrom_sameProtocol (calls : List Call) (d : Dotter) (b1 b2 : Bool) (w1 w2 : World)
    (e : Option GoError) (h : sameProtocol w1 w2) :
    sameProtocol (runFrom ⟨d.withDebug b1, w1, e⟩ calls).world
      (runFrom ⟨d.withDebug b2, w2, e⟩ calls).world ∧
    (runFrom ⟨d.withDebug b1, w1, e⟩ calls).err = (runFrom ⟨d.withDebug b2, w2, e⟩ calls).err ∧
    ∃ d2 : Dotter, (runFrom ⟨d.withDebug b1, w1, e⟩ calls).dotter = d2.withDebug b1 ∧
      (runFrom ⟨d.withDebug b2, w2, e⟩ calls).dotter = d2.withDebug b2 := by
  induction calls generalizing d w1 w2 e with
  | nil => exact ⟨h, rfl, d, rfl, rfl⟩
  | cons c cs ih =>
    obtain ⟨k1, k2, k3, k4⟩ := Call_run_sameProtocol c d b1 b2 w1 w2 h
    simp only [runFrom]
    have r1 : c.run (d.withDebug b1) w1 =
        ⟨d.sent.withDebug b1, (c.run (d.withDebug b1) w1).world,
          (c.run (d.withDebug b1) w1).err⟩ := by rw [← k3]
    have r2 : c.run (d.withDebug b2) w2 =
        ⟨d.sent.withDebug b2, (c.run (d.withDebug b2) w2).world,
          (c.run (d.withDebug b1) w1).err⟩ := by rw [← k4, k2]
    rw [r1, r2]
    exact ih d.sent _ _ _ k1

/-- C15: two sessions that differ in the `Debug` flag only, taken through the
same calls in the same environment (so with the same outcome for every write),
send the same text to the subprocess, return the same error from every call
(the error of the k-th call is the one of the run of the first k calls), end
with the same header flag, graph kind and strictness, and leave environments
that differ in the echo only. -/
theorem debug_flag_not_protocol (d : Dotter) (w : World) (calls : List Call) (b1 b2 : Bool) :
    received (runCalls (d.withDebug b1) w calls).world.events =
      received (runCalls (d.withDebug b2) w calls).world.events ∧
    (received (runCalls (d.withDebug b1) w calls).world.events).flatten =
      (received (runCalls (d.withDebug b2) w calls).world.events).flatten ∧
    (∀ k : Nat, (runCalls (d.withDebug b1) w (calls.take k)).err =
      (runCalls (d.withDebug b2) w (calls.take k)).err) ∧
    (runCalls (d.withDebug b1) w calls).dotter.isFirstCmd =
      (runCalls (d.withDebug b2) w calls).dotter.isFirstCmd ∧
    (runCalls (d.withDebug b1) w calls).dotter.graphType =
      (runCalls (d.withDebug b2) w calls).dotter.graphType ∧
    (runCalls (d.withDebug b1) w calls).dotter.isStrict =
      (runCalls (d.withDebug b2) w calls).dotter.isStrict ∧
    sameProtocol (runCalls (d.withDebug b1) w calls).world
      (runCalls (d.withDebug b2) w calls).world := by
  obtain ⟨h1, _, d2, h3, h4⟩ :=
    runFrom_sameProtocol calls d b1 b2 w w none (sameProtocol_refl w)
  have hr : received (runCalls (d.withDebug b1) w calls).world.events =
      received (runCalls (d.withDebug b2) w calls).world.events := by
    unfold runCalls
    rw [← received_silent, h1.1, received_silent]
  refine ⟨hr, by rw [hr], ?_, ?_, ?_, ?_, h1⟩
  · intro k
    exact (runFrom_sameProtocol (calls.take k) d b1 b2 w w none (sameProtocol_refl w)).2.1
  · unfold runCalls
    rw [h3, h4]
    rfl
  · unfold runCalls
    rw [h3, h4]
    rfl
  · unfold runCalls
    rw [h3, h4]
    rfl

/-! ## The error an emitting call returns -/

theorem outcomes_append (xs ys : List Event) :
    outcomes (xs ++ ys) = outcomes xs ++ outcomes ys := by
  induction xs with
  | nil => rfl
  | cons e es ih => cases e <;> simp [outcomes, ih]

/-- A run of writes makes one write for each command and returns the error of
the last one. -/
theorem emitFrom_outcomes (dbg : Bool) (acc : World × Option GoError) (cmds : List GoString) :
    ∃ evs : List Event, (emitFrom dbg acc cmds).1.events = acc.1.events ++ evs ∧
      (outcomes evs).length = cmds.length ∧
      (cmds ≠ [] → (outcomes evs).getLast? = some (emitFrom dbg acc cmds).2) := by
  induction cmds generalizing acc with
  | nil => exact ⟨[], by simp [emitFrom], rfl, by simp⟩
  | cons c cs ih =>
    obtain ⟨evs, h1, h2, h3⟩ :=
      ih (WriteString (if dbg then Printf acc.1 "dot> %s".toList [Arg.str c] else acc.1) c)
    refine ⟨(if dbg then [Event.print ("dot> ".toList ++ c)] else []) ++
      [Event.write c (WriteString (if dbg then Printf acc.1 "dot> %s".toList [Arg.str c]
        else acc.1) c).2] ++ evs, ?_, ?_, ?_⟩
    · simp only [emitFrom]
      rw [h1, WriteString_events, echo_events]
      simp
    · rw [outcomes_append, outcomes_append]
      cases dbg <;> simp [outcomes, h2]
    · intro _
      rw [outcomes_append, outcomes_append]
      simp only [emitFrom]
      cases cs with
      | nil =>
        have hnil : outcomes evs = [] := List.length_eq_zero.1 (by simpa using h2)
        cases dbg <;> simp [outcomes, hnil, emitFrom]
      | cons c2 cs2 =>
        obtain ⟨o, os, hos⟩ : ∃ o os, outcomes evs = o :: os := by
          cases hq : outcomes evs with
          | nil => rw [hq] at h2; simp at h2
          | cons o os => exact ⟨o, os, rfl⟩
        have h4 := h3 (by simp)
        rw [hos] at h4 ⊢
        cases dbg <;> simpa [outcomes] using h4

/-- On a pipe whose failure is permanent, the last write of a run fails as soon
as one write of the run fails. -/
theorem Permanent_last (os : List (Option GoError)) (last : Option GoError)
    (hp : Permanent os) (hf : ∃ o ∈ os, o ≠ none) (hl : os.getLast? = some last) :
    last ≠ none := by
  induction os with
  | nil => simp at hl
  | cons o rest ih =>
    cases rest with
    | nil =>
      obtain ⟨x, hx, hxn⟩ := hf
      simp at hx hl
      subst hx
      subst hl
      exact hxn
    | cons r rs =>
      have hl2 : (r :: rs).getLast? = some last := by simpa using hl
      cases o with
      | none =>
        obtain ⟨x, hx, hxn⟩ := hf
        rcases List.mem_cons.1 hx with h | h
        · exact absurd h hxn
        · exact ih hp ⟨x, h, hxn⟩ hl2
      | some e =>
        have hall : ∀ x ∈ r :: rs, x ≠ none := hp
        have hmem : last ∈ r :: rs := by
          rw [List.getLast?_eq_getLast _ (by simp)] at hl2
          have hq := Option.some.inj hl2
          rw [← hq]
          exact List.getLast_mem _
        exact hall last hmem

/-- C6: every emitting operation returns the error of the last write it makes on
the input pipe, the writes of the keyword `strict` and of the header on a first
call included among its writes; so on the pipe of the subprocess, where a
failure is permanent, a call in which any write fails returns a non-nil error. -/
theorem emit_returns_write_error (op : Op) (d : Dotter) (w : World) :
    ∃ evs : List Event,
      (op.run d w).world.events = w.events ++ evs ∧
      (outcomes evs).length = (preamble d).length + 1 ∧
      (outcomes evs).getLast? = some (op.run d w).err ∧
      (Permanent (outcomes evs) → (∃ o ∈ outcomes evs, o ≠ none) →
        (op.run d w).err ≠ none) := by
  obtain ⟨pre, format, args, hpre, hrun⟩ := Op_run_shape op d.graphType
  obtain ⟨evs, h1, h2, h3⟩ := emitFrom_outcomes d.Debug
    (({ w with events := w.events ++ pre } : World), none)
    (preamble d ++ [Sprintf format args ++ ['\n']])
  have hp : outcomes pre = [] := by
    rcases hpre with h | ⟨t, h⟩ <;> subst h <;> simp [outcomes]
  have hev : (op.run d w).world.events = w.events ++ (pre ++ evs) := by
    rw [hrun d w rfl, sendCmd_eq]
    simp only [emitAll]
    rw [h1, List.append_assoc]
  have herr : (op.run d w).err = (emitFrom d.Debug
      (({ w with events := w.events ++ pre } : World), none)
      (preamble d ++ [Sprintf format args ++ ['\n']])).2 := by
    rw [hrun d w rfl, sendCmd_eq]
    rfl
  have hlast : (outcomes (pre ++ evs)).getLast? = some (op.run d w).err := by
    rw [outcomes_append, hp, List.nil_append, herr]
    exact h3 (by simp)
  refine ⟨pre ++ evs, hev, ?_, hlast, ?_⟩
  · rw [outcomes_append, hp, List.nil_append, h2]
    simp
  · intro hperm hfail
    exact Permanent_last _ _ hperm hfail hlast

/-- Witness for C6: on a fresh strict session the keyword is written, then the
pipe breaks; the header and the link fail and `SetLink` returns the error. -/
theorem emit_returns_write_error_witness :
    (Op.run sampleDotter brokenPipe (Op.SetLink "a".toList "b".toList)).err ≠ none := by
  obtain ⟨evs, hev, _, _, himp⟩ :=
    emit_returns_write_error (Op.SetLink "a".toList "b".toList) sampleDotter brokenPipe
  have hrun : (Op.run sampleDotter brokenPipe (Op.SetLink "a".toList "b".toList)).world.events =
      [Event.write strictCmd none,
       Event.write "digraph\x7b\n".toList (some ⟨"broken pipe"⟩),
       Event.write "a -> b\n".toList (some ⟨"broken pipe"⟩)] := by
    decide
  have he : evs = [Event.write strictCmd none,
       Event.write "digraph\x7b\n".toList (some ⟨"broken pipe"⟩),
       Event.write "a -> b\n".toList (some ⟨"broken pipe"⟩)] := by
    rw [hrun] at hev
    exact hev.symm
  subst he
  exact himp (by simp [outcomes, Permanent])
    ⟨some ⟨"broken pipe"⟩, by simp [outcomes], by simp⟩

end Godot
